import Mathlib

/-!
# Game of Life panel (`src/main1.cpp`): shallow embedding and verified properties

The simulation core of `LifePanel` is embedded as pure functions over an explicit
state record.

Modelling conventions
* Integer widths follow the LP64 data model: `int` has 32 bits and `long` has 64 bits.
  Values are held in `Int`.  Where the source computes a result that can leave the range
  of its type, the result is wrapped explicitly (`wrapInt` for the products
  `m_width*m_height` and `m_width*2`, `wrapLong` for the generation counter): signed overflow
  is undefined in C++ and the embedding gives it the two's-complement result.  Cell indices
  `y*m_width + x` are kept exact; every one of them is checked against the length of the
  vector it subscripts.
* A store of a `long` through a pointer to an `int` (`ToLong((long*)&w)`) writes 8 bytes into
  a 4-byte object; the embedding makes it the explicit error `Fault.badStore`.
* `std::vector<bool>` is a `List Bool`.  A subscript outside `[0, size)` has no
  defined behaviour in C++; the embedding makes it the explicit error
  `Fault.outOfRange`, so that "no out-of-range access" is a provable statement.
* `wxString` is `String`; a text file is the list of its lines.
* `Refresh()` (a repaint request) has no effect on the simulation state and is
  omitted.
-/

namespace Life

/-- Ways in which an operation can leave defined behaviour or throw. -/
inductive Fault where
  /-- A subscript outside `[0, size)`. -/
  | outOfRange
  /-- A call of `assign` or `reserve` whose count is negative. -/
  | badLength
  /-- A store of 8 bytes through a pointer to a 4-byte object. -/
  | badStore
  /-- An integer division by zero. -/
  | divideByZero
  deriving DecidableEq, Repr

/-- The simulation fields of `class LifePanel` (lines 128-137 of the source). -/
structure LifePanel where
  m_width : Int
  m_height : Int
  m_current : List Bool
  m_next : List Bool
  m_generation : Int
  m_boundary : String
  deriving DecidableEq, Repr

deriving instance DecidableEq for Except

/-- The largest value of an `int`. -/
def INT_MAX : Int := 2147483647

/-- The smallest value of an `int`. -/
def INT_MIN : Int := -2147483648

/-- The largest value of a `long`. -/
def LONG_MAX : Int := 9223372036854775807

/-- The smallest value of a `long`. -/
def LONG_MIN : Int := -9223372036854775808

/-- The 32-bit two's-complement value of an `int` result. -/
def wrapInt (v : Int) : Int :=
  (v + 2147483648) % 4294967296 - 2147483648

/-- The 64-bit two's-complement value of a `long` result. -/
def wrapLong (v : Int) : Int :=
  (v + 9223372036854775808) % 18446744073709551616 - 9223372036854775808

/-- Read `v[i]`; a subscript outside the vector is a fault. -/
def readAt (v : List Bool) (i : Int) : Except Fault Bool :=
  if i < 0 then .error .outOfRange
  else
    match v[i.toNat]? with
    | some b => .ok b
    | none => .error .outOfRange

/-- Perform `v[i] = b`; a subscript outside the vector is a fault. -/
def writeAt (v : List Bool) (i : Int) (b : Bool) : Except Fault (List Bool) :=
  if i < 0 then .error .outOfRange
  else if i.toNat < v.length then .ok (v.set i.toNat b)
  else .error .outOfRange

/-- The loop `for (int i = start; i < start + count; ++i) body(i)`, threading the state
through the iterations and stopping at the first fault. -/
def forFrom {σ : Type} (body : Int → σ → Except Fault σ) : Nat → Int → σ → Except Fault σ
  | 0, _, s => .ok s
  | k + 1, i, s =>
    match body i s with
    | .ok s' => forFrom body k (i + 1) s'
    | .error e => .error e

/-- The helper `mod` of lines 292-294: `int r = a % m; return (r<0)? r+m : r;` where `%` is
the truncating remainder of C++ (`Int.tmod`). -/
def mod (a m : Int) : Int :=
  let r := Int.tmod a m
  if r < 0 then r + m else r

/-- The lambda `aliveAt` of `NextGeneration` (lines 297-306), reading the live buffer of
the state it is called in. -/
def aliveAt (s : LifePanel) (x y : Int) : Except Fault Bool :=
  if s.m_boundary = "Finite" then
    if x < 0 ∨ x ≥ s.m_width ∨ y < 0 ∨ y ≥ s.m_height then .ok false
    else readAt s.m_current (y * s.m_width + x)
  else
    let xx := mod x s.m_width
    let yy := mod y s.m_height
    readAt s.m_current (yy * s.m_width + xx)

/-- One test `if (!(i==0 && j==0) && aliveAt(x+i, y+j)) ++n;` (line 312); `aliveAt` is not
called for the centre. -/
def countOne (s : LifePanel) (x y j i n : Int) : Except Fault Int :=
  if !(i == 0 && j == 0) then
    match aliveAt s (x + i) (y + j) with
    | .ok a => .ok (if a then n + 1 else n)
    | .error e => .error e
  else .ok n

/-- The two loops over `j` and `i` of lines 309-312, starting from `n = 0`. -/
def countNeighbours (s : LifePanel) (x y : Int) : Except Fault Int :=
  forFrom (fun j n => forFrom (fun i n' => countOne s x y j i n') 3 (-1) n) 3 (-1) 0

/-- Lines 313-316: the rule applied to the current value and the neighbour count. -/
def nextState (curr : Bool) (n : Int) : Bool :=
  if curr && (n < 2 || n > 3) then false
  else if !curr && n == 3 then true
  else curr

/-- The body of the inner loop of `NextGeneration` (lines 309-317) for the cell `(x, y)`. -/
def cellBody (y x : Int) (s : LifePanel) : Except Fault LifePanel :=
  match countNeighbours s x y with
  | .error e => .error e
  | .ok n =>
    match readAt s.m_current (y * s.m_width + x) with
    | .error e => .error e
    | .ok curr =>
      match writeAt s.m_next (y * s.m_width + x) (nextState curr n) with
      | .error e => .error e
      | .ok nx => .ok { s with m_next := nx }

/-- The two loops over `y` and `x` of `NextGeneration` (lines 307-319). -/
def sweep (g : LifePanel) : Except Fault LifePanel :=
  forFrom (fun y s => forFrom (fun x s' => cellBody y x s') s.m_width.toNat 0 s)
    g.m_height.toNat 0 g

/-- The method `LifePanel::NextGeneration` (lines 296-323): the sweep, then the swap of the two
buffers and the increment `++m_generation` of the `long` generation counter. -/
def NextGeneration (g : LifePanel) : Except Fault LifePanel :=
  match sweep g with
  | .error e => .error e
  | .ok s =>
    .ok { s with m_current := s.m_next, m_next := s.m_current,
                 m_generation := wrapLong (s.m_generation + 1) }

/-- Call `NextGeneration` `n` times in a row. -/
def stepN : Nat → LifePanel → Except Fault LifePanel
  | 0, g => .ok g
  | n + 1, g =>
    match NextGeneration g with
    | .ok g' => stepN n g'
    | .error e => .error e

/-! ## Resizing and the text format -/

/-- The call `v.assign(n, false)` with an `int` count: a negative count converts to a size
beyond `max_size()` and the call throws; otherwise the vector becomes `n` dead cells. -/
def assignDead (n : Int) : Except Fault (List Bool) :=
  if n < 0 then .error .badLength else .ok (List.replicate n.toNat false)

/-- The method `LifePanel::ResizeUniverse` (lines 249-255).  It has no check on `w` and `h`; the
count `m_width*m_height` is an `int` product. -/
def ResizeUniverse (g : LifePanel) (w h : Int) : Except Fault LifePanel :=
  let g1 := { g with m_width := w, m_height := h }
  match assignDead (wrapInt (g1.m_width * g1.m_height)) with
  | .error e => .error e
  | .ok cur =>
    match assignDead (wrapInt (g1.m_width * g1.m_height)) with
    | .error e => .error e
    | .ok nxt => .ok { g1 with m_current := cur, m_next := nxt, m_generation := 0 }

/-- Library model of the conversion `%d` of `wxString::Format`: a minus sign for a negative
value, then the decimal digits. -/
def formatInt (v : Int) : String :=
  if v < 0 then "-" ++ Nat.repr v.natAbs else Nat.repr v.toNat

/-- The header line `wxString::Format("%d %d", m_width, m_height)` (line 329). -/
def formatHeader (w h : Int) : String :=
  formatInt w ++ " " ++ formatInt h

/-- The call `row.reserve(n)` with an `int` count: a negative count converts to a size beyond
`max_size()` and the call throws; otherwise the text of the string is unchanged. -/
def reserveChars (n : Int) : Except Fault Unit :=
  if n < 0 then .error .badLength else .ok ()

/-- Lines 331-335 building the text of row `y`: the call `row.reserve(m_width*2)` with its `int`
product, then one character per cell, `'1'` for an alive cell and `'0'` for a dead one. -/
def saveRow (g : LifePanel) (y : Int) : Except Fault String :=
  match reserveChars (wrapInt (g.m_width * 2)) with
  | .error e => .error e
  | .ok _ =>
    forFrom
      (fun x row =>
        match readAt g.m_current (y * g.m_width + x) with
        | .ok b => .ok (row.push (if b then '1' else '0'))
        | .error e => .error e)
      g.m_width.toNat 0 ""

/-- The method `LifePanel::SaveUniverse` (lines 325-340), as the list of lines it adds to the
file: the header, then one line per row.  `created` is the outcome of `file.Create(path)`;
when it is false the method returns false and writes nothing. -/
def SaveUniverse (g : LifePanel) (created : Bool) : Except Fault (Bool × List String) :=
  if !created then .ok (false, [])
  else
    match forFrom
        (fun y lines =>
          match saveRow g y with
          | .ok row => .ok (lines ++ [row])
          | .error e => .error e)
        g.m_height.toNat 0 [formatHeader g.m_width g.m_height] with
    | .ok lines => .ok (true, lines)
    | .error e => .error e

/-- The loop of `wxSplit(str, sep, escape)`: a separator ends the current token unless the
character before it is the escape character, in which case it replaces that character. -/
def wxSplitLoop (sep esc : Char) :
    List Char → List String → List Char → Char → List String
  | [], ret, curr, prev =>
    if !curr.isEmpty || prev == sep then ret ++ [String.mk curr] else ret
  | ch :: rest, ret, curr, prev =>
    if ch == sep then
      if prev == esc then wxSplitLoop sep esc rest ret (curr.dropLast ++ [sep]) ch
      else wxSplitLoop sep esc rest (ret ++ [String.mk curr]) [] ch
    else wxSplitLoop sep esc rest ret (curr ++ [ch]) ch

/-- Library model of `wxSplit(str, sep)` with its default escape character, the backslash
(character 92). -/
def wxSplit (str : String) (sep : Char) : List String :=
  wxSplitLoop sep (Char.ofNat 92) str.toList [] [] (Char.ofNat 0)

/-- The white space skipped by `strtol`: space, and the characters 9 to 13. -/
def isSpaceChar (c : Char) : Bool :=
  c == ' ' || (9 ≤ c.toNat && c.toNat ≤ 13)

/-- The decimal digits, characters 48 to 57. -/
def isDecDigit (c : Char) : Bool :=
  48 ≤ c.toNat && c.toNat ≤ 57

/-- The value of a run of decimal digits. -/
def digitsValue (cs : List Char) : Nat :=
  cs.foldl (fun acc c => acc * 10 + (c.toNat - 48)) 0

/-- Library model of `strtol(s, &end, 10)` as used by `wxString::ToLong`: skip white space,
read an optional sign and the longest run of digits; `none` when no digit is found, in which
case `ToLong` leaves its output untouched.  The result is the number the digits denote; the
range check of `strtol` (`ERANGE`) is made by `toLongInto`. -/
def strtol (cs : List Char) : Option Int :=
  let body := cs.dropWhile isSpaceChar
  let negative := body.head? == some '-'
  let rest := if body.head? == some '-' || body.head? == some '+' then body.tail else body
  let digits := rest.takeWhile isDecDigit
  if digits.isEmpty then none
  else some (if negative then -(digitsValue digits : Int) else (digitsValue digits : Int))

/-- The effect of `s.ToLong((long*)&v)` (lines 351-352) on the `int` variable `v` whose value
was `old`.  `ToLong` stores nothing when no digit is found or when the number is outside the
range of `long` (`ERANGE`), and `v` keeps its value.  Otherwise it stores a `long` through the
pointer, which points to an `int`: that store is a fault.  The result of `ToLong` is ignored
by the caller. -/
def toLongInto (old : Int) (s : String) : Except Fault Int :=
  match strtol s.toList with
  | none => .ok old
  | some v => if LONG_MIN ≤ v ∧ v ≤ LONG_MAX then .error .badStore else .ok old

/-- The inner loop of lines 361-363 copying the characters of `row` into row `y`. -/
def loadRow (row : String) (y : Int) (s : LifePanel) : Except Fault LifePanel :=
  forFrom
    (fun x t =>
      match row.toList[x.toNat]? with
      | none => .error .outOfRange
      | some c =>
        match writeAt t.m_current (y * t.m_width + x) (c == '1') with
        | .ok v => .ok { t with m_current := v }
        | .error e => .error e)
    (min (row.length : Int) s.m_width).toNat 0 s

/-- The method `LifePanel::LoadUniverse` (lines 342-369).  `file` is `none` when the file cannot
be opened and otherwise the list of its lines; the result pairs the returned `bool` with the
panel state after the call. -/
def LoadUniverse (g : LifePanel) (file : Option (List String)) (resizeToFile : Bool) :
    Except Fault (Bool × LifePanel) :=
  match file with
  | none => .ok (false, g)
  | some lines =>
    if lines.length < 2 then .ok (false, g)
    else
      let parts := wxSplit (lines.getD 0 "") ' '
      if parts.length ≥ 2 then
        match toLongInto 0 (parts.getD 0 "") with
        | .error e => .error e
        | .ok w =>
          match toLongInto 0 (parts.getD 1 "") with
          | .error e => .error e
          | .ok h =>
            match (if resizeToFile then ResizeUniverse g w h else .ok g) with
            | .error e => .error e
            | .ok g1 =>
              let rows := min ((lines.length : Int) - 1) g1.m_height
              match forFrom (fun y s => loadRow (lines.getD (1 + y).toNat "") y s)
                  rows.toNat 0 g1 with
              | .error e => .error e
              | .ok g2 => .ok (true, { g2 with m_generation := 0 })
      else .ok (false, g)

/-! ## Specification-side notions used to state the properties -/

/-- The eight offsets `{-1,0,1}² \ {(0,0)}`, in the order the loops visit them. -/
def neighbourOffsets : List (Int × Int) :=
  [(-1, -1), (0, -1), (1, -1), (-1, 0), (1, 0), (-1, 1), (0, 1), (1, 1)]

/-- A lookup counts as alive when it succeeds with `true`. -/
def isAlive (r : Except Fault Bool) : Bool :=
  match r with
  | .ok b => b
  | .error _ => false

/-- Number of the eight offsets at which `aliveAt` reports an alive cell in the grid `g`. -/
def liveNeighbours (g : LifePanel) (x y : Int) : Nat :=
  neighbourOffsets.countP (fun p => isAlive (aliveAt g (x + p.1) (y + p.2)))

/-- The validity condition of the data model: positive sides and two buffers of
`width * height` cells. -/
def WellFormed (g : LifePanel) : Prop :=
  1 ≤ g.m_width ∧ 1 ≤ g.m_height ∧
    (g.m_current.length : Int) = g.m_width * g.m_height ∧
    (g.m_next.length : Int) = g.m_width * g.m_height

instance (g : LifePanel) : Decidable (WellFormed g) := by
  unfold WellFormed; infer_instance

/-- The value the rule gives cell `(x, y)`, computed on the grid `g` alone. -/
def ruleAt (g : LifePanel) (x y : Int) : Bool :=
  nextState (isAlive (readAt g.m_current (y * g.m_width + x))) (liveNeighbours g x y)

/-- Cells visited before `(x, y)` in the row-major sweep already hold their new value in `nx`. -/
def DoneUpTo (g : LifePanel) (y x : Int) (nx : List Bool) : Prop :=
  ∀ x' y', 0 ≤ x' → x' < g.m_width → 0 ≤ y' → y' < g.m_height →
    (y' < y ∨ (y' = y ∧ x' < x)) → readAt nx (y' * g.m_width + x') = .ok (ruleAt g x' y')

/-- The sweep has only replaced the scratch buffer, by one of the same length in which the
cells before `(x, y)` are final. -/
def SweepInv (g : LifePanel) (y x : Int) (s : LifePanel) : Prop :=
  ∃ nx, s = { g with m_next := nx } ∧ nx.length = g.m_next.length ∧ DoneUpTo g y x nx

/-- The characters of the line written for row `y`: `'1'` for an alive cell, `'0'` for a dead
one, for the columns `0 .. width - 1`. -/
def rowChars (g : LifePanel) (y : Int) : List Char :=
  (List.range g.m_width.toNat).map
    (fun (x : Nat) => if isAlive (readAt g.m_current (y * g.m_width + (x : Int))) then '1' else '0')

/-- The lines of the text format for the grid `g`: the header, then one line per row. -/
def savedLines (g : LifePanel) : List String :=
  formatHeader g.m_width g.m_height ::
    (List.range g.m_height.toNat).map (fun (y : Nat) => String.mk (rowChars g (y : Int)))

/-- The line of the file that holds row `y`. -/
def fileRow (lines : List String) (y : Int) : String :=
  lines.getD (1 + y).toNat ""

/-- Invariant of the loop of `loadRow` before column `i`: only the live buffer has changed, it
has kept its length, the columns before `i` of row `y` hold the characters of `row`, and all
other cells are as in `s`. -/
def LoadRowInv (row : String) (y : Int) (s : LifePanel) (i : Int) (t : LifePanel) : Prop :=
  ∃ cur, t = { s with m_current := cur } ∧ cur.length = s.m_current.length ∧
    (∀ x c, 0 ≤ x → x < i → x < s.m_width → row.toList[x.toNat]? = some c →
      readAt cur (y * s.m_width + x) = .ok (c == '1')) ∧
    (∀ x y', 0 ≤ x → x < s.m_width → 0 ≤ y' → y' < s.m_height → (y' ≠ y ∨ i ≤ x) →
      readAt cur (y' * s.m_width + x) = readAt s.m_current (y' * s.m_width + x))

/-- Invariant of the loop over the rows of `LoadUniverse` before row `i`. -/
def LoadRowsInv (lines : List String) (g : LifePanel) (i : Int) (t : LifePanel) : Prop :=
  ∃ cur, t = { g with m_current := cur } ∧ cur.length = g.m_current.length ∧
    (∀ x y c, 0 ≤ x → x < g.m_width → 0 ≤ y → y < g.m_height → y < i →
      (fileRow lines y).toList[x.toNat]? = some c →
      readAt cur (y * g.m_width + x) = .ok (c == '1')) ∧
    (∀ x y, 0 ≤ x → x < g.m_width → 0 ≤ y → y < g.m_height →
      (i ≤ y ∨ ((fileRow lines y).length : Int) ≤ x) →
      readAt cur (y * g.m_width + x) = readAt g.m_current (y * g.m_width + x))

/-- Whether `(x, y)` is a coordinate of the grid. -/
def inGrid (g : LifePanel) (x y : Int) : Bool :=
  decide (0 ≤ x ∧ x < g.m_width ∧ 0 ≤ y ∧ y < g.m_height)

/-! ## Small fixtures on which the properties are exercised -/

/-- A 5x5 finite grid holding a horizontal row of three alive cells centred at `(2, 2)`. -/
def blinkerRow : LifePanel :=
  { m_width := 5, m_height := 5,
    m_current := [false, false, false, false, false,
                  false, false, false, false, false,
                  false, true, true, true, false,
                  false, false, false, false, false,
                  false, false, false, false, false],
    m_next := List.replicate 25 false, m_generation := 0, m_boundary := "Finite" }

/-- The vertical column of three alive cells through `(2, 2)` on a 5x5 grid. -/
def blinkerColumn : List Bool :=
  [false, false, false, false, false,
   false, false, true, false, false,
   false, false, true, false, false,
   false, false, true, false, false,
   false, false, false, false, false]

/-- A 3x3 grid with all nine cells alive under the given boundary mode. -/
def full3 (boundary : String) : LifePanel :=
  { m_width := 3, m_height := 3, m_current := List.replicate 9 true,
    m_next := List.replicate 9 false, m_generation := 0, m_boundary := boundary }

/-- A 3x3 toroidal grid whose only alive cell is `(2, 2)`. -/
def cornerOnly3 : LifePanel :=
  { m_width := 3, m_height := 3,
    m_current := [false, false, false, false, false, false, false, false, true],
    m_next := List.replicate 9 false, m_generation := 0, m_boundary := "Toroidal" }

/-- A grid that breaks the data model: sides 2x2 but a live buffer of a single cell. -/
def shortBuffer : LifePanel :=
  { m_width := 2, m_height := 2, m_current := [true], m_next := [false, false, false, false],
    m_generation := 0, m_boundary := "Toroidal" }

/-- The all-alive 3x3 toroidal grid whose generation counter holds the largest `long`. -/
def atLongMax : LifePanel :=
  { full3 "Toroidal" with m_generation := LONG_MAX }

/-- The lines `SaveUniverse` writes for the 5x5 blinker grid. -/
def blinkerFile : List String :=
  ["5 5", "00000", "00000", "01110", "00000", "00000"]

/-- A 2x2 destination grid at generation 7 with two alive cells. -/
def dest2 : LifePanel :=
  { m_width := 2, m_height := 2, m_current := [true, false, false, true],
    m_next := [false, false, false, false], m_generation := 7, m_boundary := "Toroidal" }

/-! ## The glider on the 20x20 torus -/

/-- The canonical five-cell glider. -/
def glider : List (Int × Int) :=
  [(1, 0), (2, 1), (0, 2), (1, 2), (2, 2)]

/-- The glider after one generation. -/
def gliderPhase1 : List (Int × Int) :=
  [(0, 1), (2, 1), (1, 2), (2, 2), (1, 3)]

/-- The glider after two generations. -/
def gliderPhase2 : List (Int × Int) :=
  [(2, 1), (0, 2), (2, 2), (1, 3), (2, 3)]

/-- The glider after three generations. -/
def gliderPhase3 : List (Int × Int) :=
  [(1, 1), (2, 2), (3, 2), (1, 3), (2, 3)]

/-- A pattern translated by `(ox, oy)`, its coordinates wrapped modulo 20. -/
def translated (cells : List (Int × Int)) (ox oy : Int) : List (Int × Int) :=
  cells.map (fun p => (mod (p.1 + ox) 20, mod (p.2 + oy) 20))

/-- The row-major buffer of a 20x20 grid whose cell `(x, y)` is `alive x y`. -/
def torusBuffer (alive : Int → Int → Bool) : List Bool :=
  (List.range 400).map (fun (i : Nat) => alive ((i % 20 : Nat) : Int) ((i / 20 : Nat) : Int))

/-- The 20x20 toroidal grid whose alive cells are exactly the glider translated by
`(ox, oy)`, with the given generation counter and scratch buffer. -/
def gliderGrid (ox oy gen : Int) (scratch : List Bool) : LifePanel :=
  { m_width := 20, m_height := 20,
    m_current := torusBuffer (fun x y => decide ((x, y) ∈ translated glider ox oy)),
    m_next := scratch, m_generation := gen, m_boundary := "Toroidal" }

/-- Membership in a list of cells, as a cell function. -/
def memFn (cells : List (Int × Int)) (u v : Int) : Bool :=
  decide ((u, v) ∈ cells)

/-- The cell function of a pattern moved by `(ox, oy)` on the 20x20 torus. -/
def shiftPat (P : Int → Int → Bool) (ox oy : Int) (x y : Int) : Bool :=
  P (mod (x - ox) 20) (mod (y - oy) 20)

/-- One generation of a cell function on the 20x20 torus. -/
def torusStep (P : Int → Int → Bool) (x y : Int) : Bool :=
  nextState (P x y)
    ((neighbourOffsets.countP (fun p => P (mod (x + p.1) 20) (mod (y + p.2) 20)) : Nat) : Int)

/-- The grid `g` is a well-formed 20x20 toroidal grid whose cells are given by `P`. -/
def Shows (g : LifePanel) (P : Int → Int → Bool) : Prop :=
  g.m_width = 20 ∧ g.m_height = 20 ∧ g.m_boundary ≠ "Finite" ∧
    g.m_current.length = 400 ∧ g.m_next.length = 400 ∧
    ∀ x y, 0 ≤ x → x < 20 → 0 ≤ y → y < 20 → readAt g.m_current (y * 20 + x) = .ok (P x y)
/-! ## Toggling, counting and randomizing -/

/-- The guarded block of `ToggleCellAt` (lines 285-289) for the cell coordinate `(x, y)`:
inside the grid the cell `m_current[y*m_width + x]` is replaced by its negation, outside
nothing happens. -/
def toggleCell (g : LifePanel) (x y : Int) : Except Fault LifePanel :=
  if x ≥ 0 ∧ x < g.m_width ∧ y ≥ 0 ∧ y < g.m_height then
    match readAt g.m_current (y * g.m_width + x) with
    | .error e => .error e
    | .ok b =>
      match writeAt g.m_current (y * g.m_width + x) (!b) with
      | .error e => .error e
      | .ok v => .ok { g with m_current := v }
  else .ok g

/-- The `int` division `a / b` of C++: truncating, and a fault when `b` is zero. -/
def intDiv (a b : Int) : Except Fault Int :=
  if b = 0 then .error .divideByZero else .ok (Int.tdiv a b)

/-- The method `LifePanel::ToggleCellAt` (lines 278-290).  `clientW` and `clientH` are the sides
of the client area returned by `GetClientSize()`, and `(px, py)` is the point in pixels.  The
cell sides are at least 1, so only the first two divisions can fault. -/
def ToggleCellAt (g : LifePanel) (clientW clientH px py : Int) : Except Fault LifePanel :=
  match intDiv clientW g.m_width with
  | .error e => .error e
  | .ok qw =>
    match intDiv clientH g.m_height with
    | .error e => .error e
    | .ok qh =>
      let cellW := max 1 qw
      let cellH := max 1 qh
      toggleCell g (Int.tdiv px cellW) (Int.tdiv py cellH)

/-- The method `LifePanel::AliveCount` (lines 274-276): a counter incremented once for every
alive cell of the live buffer. -/
def AliveCount (g : LifePanel) : Int :=
  g.m_current.foldl (fun c v => if v then c + 1 else c) 0

/-- The body of the inner loop of `Randomize` (lines 266-267).  The random source is the
sequence `rnd` of the values returned by successive calls of `rand()`; the state pairs the
panel with the number of calls made so far. -/
def randomizeCell (rnd : Nat → Int) (percent y x : Int) (s : LifePanel × Nat) :
    Except Fault (LifePanel × Nat) :=
  let alive := decide (Int.tmod (rnd s.2) 100 < percent)
  match writeAt s.1.m_current (y * s.1.m_width + x) alive with
  | .error e => .error e
  | .ok v => .ok ({ s.1 with m_current := v }, s.2 + 1)

/-- The method `LifePanel::Randomize` (lines 263-272).  It has no clamp on `percent`. -/
def Randomize (g : LifePanel) (rnd : Nat → Int) (percent : Int) : Except Fault LifePanel :=
  match forFrom
      (fun y s => forFrom (fun x s' => randomizeCell rnd percent y x s') s.1.m_width.toNat 0 s)
      g.m_height.toNat 0 (g, 0) with
  | .error e => .error e
  | .ok s => .ok { s.1 with m_generation := 0 }

/-- The size a header declares, read the way `LoadUniverse` reads it (lines 346-352): the
numbers `strtol` finds in the first two space-separated tokens, or `none` when there are fewer
than two tokens or one of them holds no number. -/
def headerSize (header : String) : Option (Int × Int) :=
  let parts := wxSplit header ' '
  if parts.length ≥ 2 then
    match strtol (parts.getD 0 "").toList, strtol (parts.getD 1 "").toList with
    | some w, some h => some (w, h)
    | _, _ => none
  else none

/-- Invariant of the loops of `Randomize` before the cell `(x, y)`: only the live buffer has
changed, it has kept its length, and every cell visited so far holds the outcome of one draw. -/
def RandInv (g : LifePanel) (rnd : Nat → Int) (percent y x : Int) (s : LifePanel × Nat) :
    Prop :=
  ∃ cur, s.1 = { g with m_current := cur } ∧ cur.length = g.m_current.length ∧
    ∀ x' y', 0 ≤ x' → x' < g.m_width → 0 ≤ y' → y' < g.m_height →
      (y' < y ∨ (y' = y ∧ x' < x)) →
      ∃ k, readAt cur (y' * g.m_width + x') = .ok (decide (Int.tmod (rnd k) 100 < percent))

/-- A sequence of draws with remainders 0, 37, 74, 11, ... modulo 100. -/
def sampleDraws (k : Nat) : Int :=
  (k : Int) * 137

/-- A header is valid when it declares two positive `int` sides. -/
def ValidHeader (header : String) : Prop :=
  ∃ w h : Int, 1 ≤ w ∧ w ≤ INT_MAX ∧ 1 ≤ h ∧ h ≤ INT_MAX ∧ headerSize header = some (w, h)

/-- A file declaring a 5x5 universe whose rows are ragged and hold stray characters. -/
def raggedFile : List String :=
  ["5 5", "x1z", "1", "11"]

/-! ## Basic facts about the vectors, the loop combinator and `mod` -/

theorem readAt_of_lt (v : List Bool) (i : Int) (h0 : 0 ≤ i) (h1 : i < v.length) :
    ∃ b, readAt v i = .ok b := by
  have h2 : i.toNat < v.length := by omega
  refine ⟨v[i.toNat], ?_⟩
  simp [readAt, not_lt.mpr h0, List.getElem?_eq_getElem h2]

theorem readAt_set_self (v : List Bool) (i : Int) (b : Bool) (h0 : 0 ≤ i)
    (h1 : i < v.length) : readAt (v.set i.toNat b) i = .ok b := by
  have h2 : i.toNat < v.length := by omega
  simp [readAt, not_lt.mpr h0, h2]

theorem readAt_set_ne (v : List Bool) (i j : Int) (b : Bool) (h0 : 0 ≤ i) (hj : 0 ≤ j)
    (hne : j ≠ i) : readAt (v.set i.toNat b) j = readAt v j := by
  have h2 : i.toNat ≠ j.toNat := by omega
  simp [readAt, not_lt.mpr hj, List.getElem?_set_ne h2]

theorem forFrom_inv {σ : Type} (body : Int → σ → Except Fault σ) (P : Int → σ → Prop) :
    ∀ (k : Nat) (i : Int) (s : σ), P i s →
      (∀ j t, i ≤ j → j < i + k → P j t → ∃ t', body j t = .ok t' ∧ P (j + 1) t') →
      ∃ s', forFrom body k i s = .ok s' ∧ P (i + k) s'
  | 0, i, s, h, _ => ⟨s, rfl, by simpa using h⟩
  | k + 1, i, s, h, hb => by
    obtain ⟨t, ht, hP⟩ := hb i s le_rfl (by push_cast; omega) h
    obtain ⟨s', hs', hP'⟩ := forFrom_inv body P k (i + 1) t hP
      (fun j u h1 h2 hu => hb j u (by omega) (by push_cast; omega) hu)
    refine ⟨s', ?_, ?_⟩
    · simp [forFrom, ht, hs']
    · have e : i + ((k + 1 : Nat) : Int) = i + 1 + k := by push_cast; ring
      rw [e]; exact hP'

theorem mod_eq_emod (a m : Int) (hm : 1 ≤ m) : mod a m = a % m := by
  unfold mod
  have h1 := Int.tmod_add_tdiv a m
  have h2 := Int.emod_add_ediv a m
  have h3 : 0 ≤ a % m := Int.emod_nonneg a (by omega)
  have h4 : a % m < m := Int.emod_lt_of_pos a (by omega)
  by_cases ha : 0 ≤ a
  · have : Int.tmod a m = a % m := Int.tmod_eq_emod ha (by omega)
    simp only [this]
    rw [if_neg (by omega)]
  · have hb : -m < Int.tmod a m ∧ Int.tmod a m ≤ 0 := by
      obtain ⟨n, rfl⟩ := Int.eq_ofNat_of_zero_le (show 0 ≤ m by omega)
      cases a with
      | ofNat k => exact absurd (Int.ofNat_nonneg k) ha
      | negSucc k =>
        have e : Int.tmod (Int.negSucc k) (n : Int) = -(((k + 1) % n : Nat) : Int) := rfl
        have hlt : (k + 1) % n < n := Nat.mod_lt _ (by omega)
        rw [e]; omega
    have he : a % m = (Int.tmod a m) % m := by
      conv_lhs => rw [← h1]
      exact Int.add_mul_emod_self_left _ _ _
    by_cases hz : Int.tmod a m < 0
    · simp only [hz, if_true]
      rw [he, ← Int.add_emod_self]
      exact (Int.emod_eq_of_lt (by omega) (by omega)).symm
    · simp only [hz, if_false]
      rw [he]
      exact (Int.emod_eq_of_lt (by omega) (by omega)).symm

theorem index_range (w h x y : Int) (hx0 : 0 ≤ x) (hx : x < w) (hy0 : 0 ≤ y) (hy : y < h) :
    0 ≤ y * w + x ∧ y * w + x < w * h := by
  constructor
  · have : 0 ≤ y * w := mul_nonneg hy0 (by omega)
    omega
  · have : (y + 1) * w ≤ h * w := mul_le_mul_of_nonneg_right (by omega) (by omega)
    nlinarith

theorem index_inj (w x y x' y' : Int) (hx0 : 0 ≤ x) (hx : x < w) (hx0' : 0 ≤ x')
    (hx' : x' < w) (h : y' * w + x' = y * w + x) : x' = x ∧ y' = y := by
  rcases lt_trichotomy y' y with hlt | heq | hgt
  · have : (y' + 1) * w ≤ y * w := mul_le_mul_of_nonneg_right (by omega) (by omega)
    nlinarith
  · subst heq; exact ⟨by omega, rfl⟩
  · have : (y + 1) * w ≤ y' * w := mul_le_mul_of_nonneg_right (by omega) (by omega)
    nlinarith

theorem mod_range (a m : Int) (hm : 1 ≤ m) : 0 ≤ mod a m ∧ mod a m < m := by
  rw [mod_eq_emod a m hm]
  exact ⟨Int.emod_nonneg a (by omega), Int.emod_lt_of_pos a (by omega)⟩

/-- With positive sides and a live buffer of `width * height` cells every lookup succeeds. -/
theorem aliveAt_ok (s : LifePanel) (hw : 1 ≤ s.m_width) (hh : 1 ≤ s.m_height)
    (hc : (s.m_current.length : Int) = s.m_width * s.m_height) (x y : Int) :
    ∃ b, aliveAt s x y = .ok b := by
  unfold aliveAt
  by_cases hb : s.m_boundary = "Finite"
  · simp only [hb, if_true]
    by_cases ho : x < 0 ∨ x ≥ s.m_width ∨ y < 0 ∨ y ≥ s.m_height
    · exact ⟨false, by simp only [ho, if_true]⟩
    · simp only [ho, if_false]
      have hr := index_range s.m_width s.m_height x y (by omega) (by omega) (by omega) (by omega)
      exact readAt_of_lt _ _ hr.1 (by omega)
  · simp only [hb, if_false]
    have hx := mod_range x s.m_width hw
    have hy := mod_range y s.m_height hh
    have hr := index_range s.m_width s.m_height _ _ hx.1 hx.2 hy.1 hy.2
    exact readAt_of_lt _ _ hr.1 (by omega)

theorem countOne_eq (s : LifePanel) (hok : ∀ x y, ∃ b, aliveAt s x y = .ok b)
    (x y j i n : Int) :
    countOne s x y j i n =
      .ok (n + if (!(i == 0 && j == 0)) && isAlive (aliveAt s (x + i) (y + j)) then 1 else 0) := by
  obtain ⟨b, hb⟩ := hok (x + i) (y + j)
  unfold countOne
  by_cases hc : (!(i == 0 && j == 0)) = true
  · cases b <;> simp [hc, hb, isAlive]
  · simp [hc]

theorem countNeighbours_eq (s : LifePanel) (hok : ∀ x y, ∃ b, aliveAt s x y = .ok b)
    (x y : Int) : countNeighbours s x y = .ok ((liveNeighbours s x y : Nat) : Int) := by
  simp only [countNeighbours, forFrom, countOne_eq s hok, liveNeighbours, neighbourOffsets,
    List.countP_cons, List.countP_nil]
  norm_num
  generalize isAlive (aliveAt s (x + -1) (y + -1)) = b1
  generalize isAlive (aliveAt s x (y + -1)) = b2
  generalize isAlive (aliveAt s (x + 1) (y + -1)) = b3
  generalize isAlive (aliveAt s (x + -1) y) = b4
  generalize isAlive (aliveAt s (x + 1) y) = b5
  generalize isAlive (aliveAt s (x + -1) (y + 1)) = b6
  generalize isAlive (aliveAt s x (y + 1)) = b7
  generalize isAlive (aliveAt s (x + 1) (y + 1)) = b8
  cases b1 <;> cases b2 <;> cases b3 <;> cases b4 <;> cases b5 <;> cases b6 <;> cases b7 <;>
    cases b8 <;> rfl

theorem liveNeighbours_frame (g : LifePanel) (nx : List Bool) (x y : Int) :
    liveNeighbours { g with m_next := nx } x y = liveNeighbours g x y := rfl

theorem cellBody_inv (g : LifePanel) (hg : WellFormed g) (y x : Int) (hx0 : 0 ≤ x)
    (hx : x < g.m_width) (hy0 : 0 ≤ y) (hy : y < g.m_height) (s : LifePanel)
    (hs : SweepInv g y x s) : ∃ s', cellBody y x s = .ok s' ∧ SweepInv g y (x + 1) s' := by
  obtain ⟨hw, hh, hc, hn⟩ := hg
  obtain ⟨nx, rfl, hlen, hdone⟩ := hs
  have hok : ∀ a b, ∃ r, aliveAt { g with m_next := nx } a b = .ok r :=
    fun a b => aliveAt_ok _ hw hh hc a b
  have hr := index_range g.m_width g.m_height x y hx0 hx hy0 hy
  obtain ⟨c, hcur⟩ := readAt_of_lt g.m_current (y * g.m_width + x) hr.1 (by omega)
  have hlt : (y * g.m_width + x).toNat < nx.length := by omega
  refine ⟨{ g with m_next := nx.set (y * g.m_width + x).toNat (ruleAt g x y) }, ?_, ?_⟩
  · simp only [cellBody, countNeighbours_eq _ hok, hcur, writeAt, not_lt.mpr hr.1, if_false,
      hlt, if_true, ruleAt, isAlive, liveNeighbours_frame]
  · refine ⟨_, rfl, by simp [hlen], ?_⟩
    intro x' y' hx0' hx' hy0' hy' hlex
    by_cases he : x' = x ∧ y' = y
    · obtain ⟨rfl, rfl⟩ := he
      exact readAt_set_self nx _ _ hr.1 (by omega)
    · have hr' := index_range g.m_width g.m_height x' y' hx0' hx' hy0' hy'
      have hne : y' * g.m_width + x' ≠ y * g.m_width + x :=
        fun e => he (index_inj g.m_width x y x' y' hx0 hx hx0' hx' e)
      rw [readAt_set_ne nx _ _ _ hr.1 hr'.1 hne]
      apply hdone x' y' hx0' hx' hy0' hy'
      rcases hlex with h | ⟨h1, h2⟩
      · exact Or.inl h
      · refine Or.inr ⟨h1, ?_⟩
        rcases lt_or_eq_of_le (show x' ≤ x by omega) with h3 | h3
        · exact h3
        · exact absurd ⟨h3, h1⟩ he

theorem rowLoop_inv (g : LifePanel) (hg : WellFormed g) (y : Int) (hy0 : 0 ≤ y)
    (hy : y < g.m_height) (s : LifePanel) (hs : SweepInv g y 0 s) :
    ∃ s', forFrom (fun x s' => cellBody y x s') s.m_width.toNat 0 s = .ok s' ∧
      SweepInv g (y + 1) 0 s' := by
  have hw : s.m_width = g.m_width := by
    obtain ⟨nx, rfl, _, _⟩ := hs; rfl
  obtain ⟨s', h1, h2⟩ := forFrom_inv (fun x s' => cellBody y x s') (SweepInv g y)
    s.m_width.toNat 0 s hs
    (fun j t hj0 hj ht => cellBody_inv g hg y j hj0 (by rw [hw] at hj; have := hg.1; omega)
      hy0 hy t ht)
  refine ⟨s', h1, ?_⟩
  obtain ⟨nx, e, hlen, hdone⟩ := h2
  refine ⟨nx, e, hlen, ?_⟩
  intro x' y' hx0' hx' hy0' hy' hlex
  apply hdone x' y' hx0' hx' hy0' hy'
  have := hg.1
  rcases hlex with h | ⟨h, h'⟩
  · rcases lt_or_eq_of_le (show y' ≤ y by omega) with h3 | h3
    · exact Or.inl h3
    · exact Or.inr ⟨h3, by rw [hw]; omega⟩
  · omega

/-- The sweep of a well-formed grid succeeds, touches only the scratch buffer, keeps its
length, and leaves in it the new value of every cell. -/
theorem sweep_spec (g : LifePanel) (hg : WellFormed g) :
    ∃ nx, sweep g = .ok { g with m_next := nx } ∧ nx.length = g.m_next.length ∧
      ∀ x y, 0 ≤ x → x < g.m_width → 0 ≤ y → y < g.m_height →
        readAt nx (y * g.m_width + x) = .ok (ruleAt g x y) := by
  have h0 : SweepInv g 0 0 g := ⟨g.m_next, rfl, rfl, fun x' y' _ _ hy0' _ hlex => by omega⟩
  obtain ⟨s', h1, nx, rfl, hlen, hdone⟩ := forFrom_inv
    (fun y s => forFrom (fun x s' => cellBody y x s') s.m_width.toNat 0 s)
    (fun y s => SweepInv g y 0 s) g.m_height.toNat 0 g h0
    (fun j t hj0 hj ht => rowLoop_inv g hg j hj0 (by have := hg.2.1; omega) t ht)
  refine ⟨nx, h1, hlen, ?_⟩
  intro x y hx0 hx hy0 hy
  exact hdone x y hx0 hx hy0 hy (Or.inl (by have := hg.2.1; omega))

theorem wrapLong_of_range (v : Int) (h0 : LONG_MIN ≤ v) (h1 : v ≤ LONG_MAX) :
    wrapLong v = v := by
  unfold LONG_MIN at h0
  unfold LONG_MAX at h1
  unfold wrapLong
  omega

theorem wrapInt_of_range (v : Int) (h0 : INT_MIN ≤ v) (h1 : v ≤ INT_MAX) :
    wrapInt v = v := by
  unfold INT_MIN at h0
  unfold INT_MAX at h1
  unfold wrapInt
  omega

/-- Functional description of one call of `NextGeneration` on a well-formed grid. -/
theorem NextGeneration_spec (g : LifePanel) (hg : WellFormed g) :
    ∃ nx, NextGeneration g =
        .ok { g with m_current := nx, m_next := g.m_current,
                     m_generation := wrapLong (g.m_generation + 1) } ∧
      nx.length = g.m_next.length ∧
      ∀ x y, 0 ≤ x → x < g.m_width → 0 ≤ y → y < g.m_height →
        readAt nx (y * g.m_width + x) = .ok (ruleAt g x y) := by
  obtain ⟨nx, h1, h2, h3⟩ := sweep_spec g hg
  exact ⟨nx, by simp [NextGeneration, h1], h2, h3⟩

theorem nextState_true_iff (c : Bool) (n : Nat) :
    nextState c (n : Int) = true ↔
      (c = true ∧ (n = 2 ∨ n = 3)) ∨ (c = false ∧ n = 3) := by
  unfold nextState
  cases c <;> simp <;> omega

theorem NextGeneration_wellFormed (g : LifePanel) (hg : WellFormed g) :
    ∃ g', NextGeneration g = .ok g' ∧ WellFormed g' ∧
      g'.m_generation = wrapLong (g.m_generation + 1) ∧ g'.m_width = g.m_width ∧
      g'.m_height = g.m_height ∧ g'.m_boundary = g.m_boundary := by
  obtain ⟨nx, h1, h2, _⟩ := NextGeneration_spec g hg
  obtain ⟨hw, hh, hc, hn⟩ := hg
  exact ⟨_, h1, ⟨hw, hh, by simp only [h2]; exact hn, hc⟩, rfl, rfl, rfl, rfl⟩

theorem stepN_wellFormed (n : Nat) : ∀ (g : LifePanel), WellFormed g →
    ∃ g', stepN n g = .ok g' ∧ WellFormed g' := by
  induction n with
  | zero => intro g hg; exact ⟨g, rfl, hg⟩
  | succ n ih =>
    intro g hg
    obtain ⟨g1, h1, hw1, _⟩ := NextGeneration_wellFormed g hg
    obtain ⟨g2, h2, hw2⟩ := ih g1 hw1
    exact ⟨g2, by simp [stepN, h1, h2], hw2⟩

/-- A loop whose body leaves `f` of the state alone leaves it alone as a whole. -/
theorem forFrom_keep {σ α : Type} (body : Int → σ → Except Fault σ) (f : σ → α)
    (hb : ∀ i s s', body i s = .ok s' → f s' = f s) :
    ∀ (k : Nat) (i : Int) (s s' : σ), forFrom body k i s = .ok s' → f s' = f s
  | 0, _, s, s', h => by
    simp only [forFrom, Except.ok.injEq] at h
    rw [h]
  | k + 1, i, s, s', h => by
    simp only [forFrom] at h
    cases hbi : body i s with
    | error e => rw [hbi] at h; simp at h
    | ok t =>
      rw [hbi] at h
      rw [forFrom_keep body f hb k (i + 1) t s' h, hb i s t hbi]

theorem cellBody_generation (y x : Int) (s s' : LifePanel) (h : cellBody y x s = .ok s') :
    s'.m_generation = s.m_generation := by
  unfold cellBody at h
  split at h
  · simp at h
  · split at h
    · simp at h
    · split at h
      · simp at h
      · simp only [Except.ok.injEq] at h
        rw [← h]

theorem sweep_generation (g s : LifePanel) (h : sweep g = .ok s) :
    s.m_generation = g.m_generation := by
  unfold sweep at h
  refine forFrom_keep _ (fun t => t.m_generation) ?_ _ _ g s h
  intro y t t' ht
  exact forFrom_keep _ (fun t => t.m_generation)
    (fun x u u' hu => cellBody_generation y x u u' hu) _ _ t t' ht

theorem NextGeneration_generation (g g' : LifePanel) (h : NextGeneration g = .ok g') :
    g'.m_generation = wrapLong (g.m_generation + 1) := by
  unfold NextGeneration at h
  split at h
  · simp at h
  · rename_i s hs
    simp only [Except.ok.injEq] at h
    rw [← h]
    simp [sweep_generation g s hs]

/-- As long as the counter stays in the range of `long`, `n` steps add exactly `n` to it. -/
theorem stepN_generation (n : Nat) : ∀ (g g' : LifePanel), LONG_MIN ≤ g.m_generation →
    g.m_generation + n ≤ LONG_MAX → stepN n g = .ok g' →
    g'.m_generation = g.m_generation + n := by
  induction n with
  | zero =>
    intro g g' _ _ h
    simp only [stepN, Except.ok.injEq] at h
    simp [h]
  | succ n ih =>
    intro g g' hlo hhi h
    simp only [stepN] at h
    cases h1 : NextGeneration g with
    | error e => rw [h1] at h; simp at h
    | ok g1 =>
      rw [h1] at h
      have e1 : g1.m_generation = g.m_generation + 1 := by
        rw [NextGeneration_generation g g1 h1]
        exact wrapLong_of_range _ (by omega) (by push_cast at hhi; omega)
      rw [ih g1 g' (by omega) (by rw [e1]; push_cast at hhi; omega) h, e1]
      push_cast; ring

theorem tmod_bounds (a m : Int) (hm : 1 ≤ m) : -m < Int.tmod a m ∧ Int.tmod a m < m := by
  obtain ⟨n, rfl⟩ := Int.eq_ofNat_of_zero_le (show 0 ≤ m by omega)
  have hn : 0 < n := by omega
  cases a with
  | ofNat k =>
    have e : Int.tmod (Int.ofNat k) (n : Int) = ((k % n : Nat) : Int) := rfl
    have hlt : k % n < n := Nat.mod_lt _ hn
    rw [e]; omega
  | negSucc k =>
    have e : Int.tmod (Int.negSucc k) (n : Int) = -(((k + 1) % n : Nat) : Int) := rfl
    have hlt : (k + 1) % n < n := Nat.mod_lt _ hn
    rw [e]; omega

theorem tmod_emod (a m : Int) : (Int.tmod a m) % m = a % m := by
  have h1 := Int.tmod_add_tdiv a m
  conv_rhs => rw [← h1]
  exact (Int.add_mul_emod_self_left _ _ _).symm

theorem mod_eq_spec_formula (a m : Int) (hm : 1 ≤ m) :
    mod a m = Int.tmod (Int.tmod a m + m) m := by
  have hb := tmod_bounds a m hm
  rw [mod_eq_emod a m hm, Int.tmod_eq_emod (by omega) (by omega), Int.add_emod_self,
    tmod_emod]

theorem aliveAt_finite_eq (g : LifePanel) (hb : g.m_boundary = "Finite") (x y : Int) :
    isAlive (aliveAt g x y) =
      (inGrid g x y && isAlive (readAt g.m_current (y * g.m_width + x))) := by
  unfold aliveAt inGrid
  simp only [hb, if_true]
  by_cases ho : x < 0 ∨ x ≥ g.m_width ∨ y < 0 ∨ y ≥ g.m_height
  · have : ¬ (0 ≤ x ∧ x < g.m_width ∧ 0 ≤ y ∧ y < g.m_height) := by omega
    simp [ho, this, isAlive]
  · have : (0 ≤ x ∧ x < g.m_width ∧ 0 ≤ y ∧ y < g.m_height) := by omega
    simp [ho, this]

/-! ## Facts about the text format: digits, splitting, parsing -/

theorem toDigitsCore_append (fuel : Nat) : ∀ (n : Nat) (ds : List Char),
    Nat.toDigitsCore 10 fuel n ds = Nat.toDigitsCore 10 fuel n [] ++ ds := by
  induction fuel with
  | zero => intro n ds; simp [Nat.toDigitsCore]
  | succ f ih =>
    intro n ds
    simp only [Nat.toDigitsCore]
    by_cases h : n / 10 = 0
    · simp [h]
    · simp only [h, if_false]
      rw [ih (n / 10) (Nat.digitChar (n % 10) :: ds), ih (n / 10) [Nat.digitChar (n % 10)]]
      simp

theorem digitChar_spec (k : Nat) (hk : k < 10) :
    isDecDigit (Nat.digitChar k) = true ∧ (Nat.digitChar k).toNat - 48 = k := by
  interval_cases k <;> exact ⟨by decide, by decide⟩

theorem digitsValue_snoc (l : List Char) (c : Char) :
    digitsValue (l ++ [c]) = digitsValue l * 10 + (c.toNat - 48) := by
  simp [digitsValue, List.foldl_append]

theorem toDigitsCore_spec (fuel : Nat) : ∀ (n : Nat), n < fuel →
    (∀ c ∈ Nat.toDigitsCore 10 fuel n [], isDecDigit c = true) ∧
    Nat.toDigitsCore 10 fuel n [] ≠ [] ∧
    digitsValue (Nat.toDigitsCore 10 fuel n []) = n := by
  induction fuel with
  | zero => intro n hn; omega
  | succ f ih =>
    intro n hn
    have hd := digitChar_spec (n % 10) (Nat.mod_lt _ (by decide))
    simp only [Nat.toDigitsCore]
    by_cases h : n / 10 = 0
    · simp only [h, if_true]
      refine ⟨?_, by simp, ?_⟩
      · intro c hc
        simp only [List.mem_singleton] at hc
        rw [hc]; exact hd.1
      · have : digitsValue [Nat.digitChar (n % 10)] = (Nat.digitChar (n % 10)).toNat - 48 := by
          simp [digitsValue]
        rw [this, hd.2]; omega
    · simp only [h, if_false]
      rw [toDigitsCore_append]
      obtain ⟨i1, i2, i3⟩ := ih (n / 10) (by omega)
      refine ⟨?_, by simp, ?_⟩
      · intro c hc
        rcases List.mem_append.mp hc with hc | hc
        · exact i1 c hc
        · simp only [List.mem_singleton] at hc
          rw [hc]; exact hd.1
      · rw [digitsValue_snoc, i3, hd.2]; omega

/-- The text `%d` gives a value `v ≥ 0`: decimal digits only, at least one, of value `v`. -/
theorem formatInt_spec (v : Int) (hv : 0 ≤ v) :
    (∀ c ∈ (formatInt v).toList, isDecDigit c = true) ∧ (formatInt v).toList ≠ [] ∧
    (digitsValue (formatInt v).toList : Int) = v := by
  have e : (formatInt v).toList = Nat.toDigitsCore 10 (v.toNat + 1) v.toNat [] := by
    simp [formatInt, not_lt.mpr hv, Nat.repr, Nat.toDigits, List.asString]
  rw [e]
  obtain ⟨h1, h2, h3⟩ := toDigitsCore_spec (v.toNat + 1) v.toNat (by omega)
  exact ⟨h1, h2, by rw [h3]; omega⟩

theorem takeWhile_digits (l : List Char) (h : ∀ c ∈ l, isDecDigit c = true) :
    l.takeWhile isDecDigit = l := by
  induction l with
  | nil => rfl
  | cons a t ih =>
    have ha := h a (List.mem_cons_self a t)
    simp only [List.takeWhile, ha]
    rw [ih (fun c hc => h c (List.mem_cons_of_mem a hc))]

theorem decDigit_facts (c : Char) (h : isDecDigit c = true) :
    isSpaceChar c = false ∧ c ≠ '-' ∧ c ≠ '+' ∧ c ≠ ' ' ∧ c ≠ Char.ofNat 92 := by
  simp only [isDecDigit, Bool.and_eq_true, decide_eq_true_eq] at h
  have h32 : c ≠ ' ' := by rintro rfl; revert h; decide
  refine ⟨?_, ?_, ?_, h32, ?_⟩
  · simp only [isSpaceChar, Bool.or_eq_false_iff, Bool.and_eq_false_iff,
      decide_eq_false_iff_not, beq_eq_false_iff_ne, ne_eq]
    exact ⟨h32, by omega⟩
  · rintro rfl; revert h; decide
  · rintro rfl; revert h; decide
  · rintro rfl; revert h; decide

/-- Parsing a non-empty run of decimal digits gives its value. -/
theorem strtol_digits (l : List Char) (h : ∀ c ∈ l, isDecDigit c = true) (hne : l ≠ []) :
    strtol l = some (digitsValue l : Int) := by
  cases l with
  | nil => exact absurd rfl hne
  | cons a t =>
    have ha := decDigit_facts a (h a (List.mem_cons_self a t))
    have hdrop : (a :: t).dropWhile isSpaceChar = a :: t := by
      simp [List.dropWhile, ha.1]
    have htw := takeWhile_digits (a :: t) h
    have e1 : (some a == some '-') = false := by simp [ha.2.1]
    have e2 : (some a == some '+') = false := by simp [ha.2.2.1]
    unfold strtol
    simp only [hdrop, List.head?_cons, e1, e2, Bool.or_self, Bool.false_eq_true, if_false, htw,
      List.isEmpty_cons]

/-- Reading back a number written by `%d` makes `ToLong` store through the cast pointer. -/
theorem toLongInto_formatInt (old v : Int) (hv : 0 ≤ v) (hmax : v ≤ LONG_MAX) :
    toLongInto old (formatInt v) = .error .badStore := by
  obtain ⟨h1, h2, h3⟩ := formatInt_spec v hv
  have hlo : LONG_MIN ≤ v := by unfold LONG_MIN; omega
  unfold toLongInto
  rw [strtol_digits _ h1 h2]
  simp only [h3, hlo, hmax, and_self, if_true]

theorem wxSplitLoop_run (sep esc : Char) (l : List Char) (hl : ∀ c ∈ l, c ≠ sep) :
    ∀ (rest : List Char) (ret : List String) (curr : List Char) (prev : Char),
      wxSplitLoop sep esc (l ++ rest) ret curr prev =
        wxSplitLoop sep esc rest ret (curr ++ l) (l.getLast?.getD prev) := by
  induction l with
  | nil => intro rest ret curr prev; simp
  | cons a t ih =>
    intro rest ret curr prev
    have ha : a ≠ sep := hl a (List.mem_cons_self a t)
    have e : (a :: t).getLast?.getD prev = t.getLast?.getD a := by
      cases t with
      | nil => rfl
      | cons b u =>
        rw [List.getLast?_cons_cons]
        cases hq : (b :: u).getLast? with
        | none => exact absurd (List.getLast?_eq_none_iff.mp hq) (by simp)
        | some c => rfl
    have hbeq : (a == sep) = false := by simp [ha]
    rw [e, List.cons_append, wxSplitLoop, hbeq]
    simp only [Bool.false_eq_true, if_false]
    rw [ih (fun c hc => hl c (List.mem_cons_of_mem a hc))]
    simp

/-- Splitting the header written by `SaveUniverse` gives back its two numbers as tokens. -/
theorem wxSplit_formatHeader (w h : Int) (hw : 0 ≤ w) (hh : 0 ≤ h) :
    wxSplit (formatHeader w h) ' ' = [formatInt w, formatInt h] := by
  obtain ⟨w1, w2, _⟩ := formatInt_spec w hw
  obtain ⟨h1, h2, _⟩ := formatInt_spec h hh
  have e : (formatHeader w h).toList =
      (formatInt w).toList ++ (' ' :: ((formatInt h).toList ++ [])) := by
    simp [formatHeader]
  have hlast : (formatInt w).toList.getLast?.getD (Char.ofNat 0) ≠ Char.ofNat 92 := by
    cases hl : (formatInt w).toList.getLast? with
    | none => exact absurd (List.getLast?_eq_none_iff.mp hl) w2
    | some c =>
      exact (decDigit_facts c (w1 c (List.mem_of_mem_getLast? hl))).2.2.2.2
  unfold wxSplit
  rw [e, wxSplitLoop_run _ _ _ (fun c hc => (decDigit_facts c (w1 c hc)).2.2.2.1)]
  simp only [wxSplitLoop, beq_self_eq_true, if_true, beq_iff_eq, hlast, if_false, List.nil_append]
  rw [wxSplitLoop_run _ _ _ (fun c hc => (decDigit_facts c (h1 c hc)).2.2.2.1)]
  have hne : ((formatInt h).toList).isEmpty = false := by
    cases hq : (formatInt h).toList with
    | nil => exact absurd hq h2
    | cons a t => rfl
  have hne' : (formatInt h).data ≠ [] := h2
  simp [wxSplitLoop, hne, hne']

theorem resizeUniverse_effect (g : LifePanel) (w h : Int) (hwh : 0 ≤ w * h)
    (hmax : w * h ≤ INT_MAX) :
    ResizeUniverse g w h =
      .ok { m_width := w, m_height := h,
            m_current := List.replicate (w * h).toNat false,
            m_next := List.replicate (w * h).toNat false,
            m_generation := 0, m_boundary := g.m_boundary } := by
  have e : wrapInt (w * h) = w * h :=
    wrapInt_of_range _ (by unfold INT_MIN; omega) hmax
  simp [ResizeUniverse, assignDead, e, not_lt.mpr hwh]

/-! ## Functional descriptions of `SaveUniverse` and of the loops of `LoadUniverse` -/

theorem saveRow_spec (g : LifePanel)
    (hc : (g.m_current.length : Int) = g.m_width * g.m_height) (hw0 : 0 ≤ g.m_width)
    (hw2 : g.m_width * 2 ≤ INT_MAX) (y : Int) (hy0 : 0 ≤ y)
    (hy : y < g.m_height) : saveRow g y = .ok (String.mk (rowChars g y)) := by
  have hres : reserveChars (wrapInt (g.m_width * 2)) = .ok () := by
    rw [wrapInt_of_range _ (by unfold INT_MIN; omega) hw2]
    simp only [reserveChars, not_lt.mpr (show (0 : Int) ≤ g.m_width * 2 by omega), if_false]
  obtain ⟨row, h1, h2⟩ := forFrom_inv
    (fun x row =>
      match readAt g.m_current (y * g.m_width + x) with
      | .ok b => .ok (row.push (if b then '1' else '0'))
      | .error e => .error e)
    (fun i (row : String) => row = String.mk ((List.range i.toNat).map
      (fun (x : Nat) => if isAlive (readAt g.m_current (y * g.m_width + (x : Int))) then '1' else '0')))
    g.m_width.toNat 0 "" rfl
    (by
      intro j t hj0 hj ht
      have hr := index_range g.m_width g.m_height j y hj0 (by omega) hy0 hy
      obtain ⟨b, hb⟩ := readAt_of_lt g.m_current (y * g.m_width + j) hr.1 (by omega)
      refine ⟨t.push (if b then '1' else '0'), by simp only [hb], ?_⟩
      have e1 : (j + 1).toNat = j.toNat + 1 := by omega
      have e2 : ((j.toNat : Nat) : Int) = j := by omega
      show _ = _
      rw [ht, e1, List.range_succ, List.map_append]
      simp only [List.map_cons, List.map_nil, e2, hb, isAlive]
      rfl)
  have e : (0 + (g.m_width.toNat : Int)).toNat = g.m_width.toNat := by omega
  rw [e] at h2
  unfold saveRow rowChars
  simp only [hres]
  rw [h1, h2]

/-- On a grid whose live buffer has `width * height` cells and whose width is at least 0 and
below 2^30, `SaveUniverse` succeeds and writes the header followed by one line per row. -/
theorem SaveUniverse_spec (g : LifePanel)
    (hc : (g.m_current.length : Int) = g.m_width * g.m_height) (hw0 : 0 ≤ g.m_width)
    (hw2 : g.m_width * 2 ≤ INT_MAX) :
    SaveUniverse g true = .ok (true, savedLines g) := by
  obtain ⟨lines, h1, h2⟩ := forFrom_inv
    (fun y lines =>
      match saveRow g y with
      | .ok row => .ok (lines ++ [row])
      | .error e => .error e)
    (fun i (lines : List String) => lines = formatHeader g.m_width g.m_height ::
      (List.range i.toNat).map (fun (y : Nat) => String.mk (rowChars g (y : Int))))
    g.m_height.toNat 0 [formatHeader g.m_width g.m_height] rfl
    (by
      intro j t hj0 hj ht
      have hs := saveRow_spec g hc hw0 hw2 j hj0 (by omega)
      refine ⟨t ++ [String.mk (rowChars g j)], by simp only [hs], ?_⟩
      have e1 : (j + 1).toNat = j.toNat + 1 := by omega
      have e2 : ((j.toNat : Nat) : Int) = j := by omega
      show _ = _
      rw [ht, e1, List.range_succ, List.map_append]
      simp [e2])
  have e : (0 + (g.m_height.toNat : Int)).toNat = g.m_height.toNat := by omega
  rw [e] at h2
  unfold SaveUniverse savedLines
  simp only [Bool.not_true, Bool.false_eq_true, if_false, h1, h2]

theorem loadRow_step (row : String) (y : Int) (s : LifePanel)
    (hc : (s.m_current.length : Int) = s.m_width * s.m_height) (hy0 : 0 ≤ y)
    (hy : y < s.m_height) (j : Int) (t : LifePanel) (hj0 : 0 ≤ j)
    (hj : j < 0 + ((min (row.length : Int) s.m_width).toNat : Int))
    (ht : LoadRowInv row y s j t) :
    ∃ t', (match row.toList[j.toNat]? with
        | none => Except.error Fault.outOfRange
        | some c =>
          match writeAt t.m_current (y * t.m_width + j) (c == '1') with
          | .ok v => Except.ok { t with m_current := v }
          | .error e => Except.error e) = .ok t' ∧ LoadRowInv row y s (j + 1) t' := by
  obtain ⟨cur, rfl, hlen, hA, hB⟩ := ht
  have hjw : j < s.m_width := by omega
  have hjr : j.toNat < row.toList.length := by
    have : row.length = row.toList.length := rfl
    omega
  have hr := index_range s.m_width s.m_height j y hj0 hjw hy0 hy
  have hlt : (y * s.m_width + j).toNat < cur.length := by omega
  refine ⟨{ s with m_current := cur.set (y * s.m_width + j).toNat (row.toList[j.toNat] == '1') },
    ?_, ?_⟩
  · simp only [List.getElem?_eq_getElem hjr, writeAt, not_lt.mpr hr.1, if_false, hlt, if_true]
  · refine ⟨_, rfl, by simp [hlen], ?_, ?_⟩
    · intro x c hx0 hx hxw hxc
      by_cases he : x = j
      · subst he
        rw [List.getElem?_eq_getElem hjr, Option.some.injEq] at hxc
        rw [← hxc]
        exact readAt_set_self cur _ _ hr.1 (by omega)
      · have hr' := index_range s.m_width s.m_height x y hx0 hxw hy0 hy
        rw [readAt_set_ne cur _ _ _ hr.1 hr'.1 (by omega)]
        exact hA x c hx0 (by omega) hxw hxc
    · intro x y' hx0 hxw hy0' hy' hor
      have hr' := index_range s.m_width s.m_height x y' hx0 hxw hy0' hy'
      have hne : y' * s.m_width + x ≠ y * s.m_width + j := by
        intro e
        have := index_inj s.m_width j y x y' hj0 hjw hx0 hxw e
        omega
      rw [readAt_set_ne cur _ _ _ hr.1 hr'.1 hne]
      exact hB x y' hx0 hxw hy0' hy' (by omega)

theorem loadRow_spec (row : String) (y : Int) (s : LifePanel)
    (hc : (s.m_current.length : Int) = s.m_width * s.m_height) (hy0 : 0 ≤ y)
    (hy : y < s.m_height) :
    ∃ t, loadRow row y s = .ok t ∧
      LoadRowInv row y s (0 + ((min (row.length : Int) s.m_width).toNat : Int)) t := by
  unfold loadRow
  exact forFrom_inv _ (LoadRowInv row y s) _ 0 s
    ⟨s.m_current, rfl, rfl, fun x c hx0 hx _ _ => by omega, fun _ _ _ _ _ _ _ => rfl⟩
    (fun j t hj0 hj ht => loadRow_step row y s hc hy0 hy j t hj0 hj ht)

theorem loadRows_step (lines : List String) (g : LifePanel)
    (hc : (g.m_current.length : Int) = g.m_width * g.m_height) (j : Int) (t : LifePanel)
    (hj0 : 0 ≤ j) (hj : j < g.m_height) (ht : LoadRowsInv lines g j t) :
    ∃ t', loadRow (lines.getD (1 + j).toNat "") j t = .ok t' ∧
      LoadRowsInv lines g (j + 1) t' := by
  obtain ⟨cur, rfl, hlen, hA, hB⟩ := ht
  obtain ⟨t', h1, cur', e', hlen', hA', hB'⟩ := loadRow_spec (lines.getD (1 + j).toNat "") j
    { g with m_current := cur } (by simp only [hlen]; exact hc) hj0 hj
  refine ⟨t', h1, cur', e', by rw [hlen', ← hlen], ?_, ?_⟩
  · intro x y c hx0 hxw hy0 hy hyj hxc
    by_cases he : y = j
    · subst he
      have hxl : x.toNat < (fileRow lines y).toList.length := by
        by_contra hcon
        rw [List.getElem?_eq_none (by omega)] at hxc
        exact absurd hxc (by simp)
      have hxl' : (fileRow lines y).length = (fileRow lines y).toList.length := rfl
      refine hA' x c hx0 ?_ hxw hxc
      have : (lines.getD (1 + y).toNat "").length = (fileRow lines y).length := rfl
      simp only [this]
      omega
    · rw [hB' x y hx0 hxw hy0 hy (Or.inl he)]
      exact hA x y c hx0 hxw hy0 hy (by omega) hxc
  · intro x y hx0 hxw hy0 hy hor
    have hrow : (lines.getD (1 + j).toNat "").length = (fileRow lines j).length := rfl
    by_cases he : y = j
    · subst he
      rw [hB' x y hx0 hxw hy0 hy (Or.inr (by simp only [hrow]; omega))]
      exact hB x y hx0 hxw hy0 hy (Or.inl le_rfl)
    · rw [hB' x y hx0 hxw hy0 hy (Or.inl he)]
      exact hB x y hx0 hxw hy0 hy (by omega)

/-- The loop over the rows of `LoadUniverse`, run on a grid whose live buffer has
`width * height` cells, succeeds; it changes the live buffer only, keeps its length, writes
every cell for which the file has a character and leaves all other cells alone. -/
theorem loadRows_spec (lines : List String) (g : LifePanel)
    (hc : (g.m_current.length : Int) = g.m_width * g.m_height) :
    ∃ cur, forFrom (fun y s => loadRow (lines.getD (1 + y).toNat "") y s)
        (min ((lines.length : Int) - 1) g.m_height).toNat 0 g =
          .ok { g with m_current := cur } ∧
      cur.length = g.m_current.length ∧
      (∀ x y c, 0 ≤ x → x < g.m_width → 0 ≤ y → y < g.m_height →
        y < (lines.length : Int) - 1 → (fileRow lines y).toList[x.toNat]? = some c →
        readAt cur (y * g.m_width + x) = .ok (c == '1')) ∧
      (∀ x y, 0 ≤ x → x < g.m_width → 0 ≤ y → y < g.m_height →
        ((lines.length : Int) - 1 ≤ y ∨ ((fileRow lines y).length : Int) ≤ x) →
        readAt cur (y * g.m_width + x) = readAt g.m_current (y * g.m_width + x)) := by
  obtain ⟨t, h1, cur, rfl, hlen, hA, hB⟩ := forFrom_inv
    (fun y s => loadRow (lines.getD (1 + y).toNat "") y s) (LoadRowsInv lines g)
    (min ((lines.length : Int) - 1) g.m_height).toNat 0 g
    ⟨g.m_current, rfl, rfl, fun x y c _ _ hy0 _ hy _ => by omega, fun _ _ _ _ _ _ _ => rfl⟩
    (fun j t hj0 hj ht => loadRows_step lines g hc j t hj0 (by omega) ht)
  refine ⟨cur, h1, hlen, ?_, ?_⟩
  · intro x y c hx0 hxw hy0 hy hyl hxc
    exact hA x y c hx0 hxw hy0 hy (by omega) hxc
  · intro x y hx0 hxw hy0 hy hor
    exact hB x y hx0 hxw hy0 hy (by omega)

/-- Two buffers of `w * h` cells that agree at every coordinate of the grid are equal. -/
theorem buffer_ext (l1 l2 : List Bool) (w h : Int) (hw : 1 ≤ w)
    (h1 : (l1.length : Int) = w * h) (h2 : l2.length = l1.length)
    (hall : ∀ x y, 0 ≤ x → x < w → 0 ≤ y → y < h →
      readAt l1 (y * w + x) = readAt l2 (y * w + x)) : l1 = l2 := by
  apply List.ext_getElem h2.symm
  intro i hi1 hi2
  have hx0 : 0 ≤ (i : Int) % w := Int.emod_nonneg _ (by omega)
  have hx : (i : Int) % w < w := Int.emod_lt_of_pos _ (by omega)
  have hy0 : 0 ≤ (i : Int) / w := Int.ediv_nonneg (by omega) (by omega)
  have hy : (i : Int) / w < h := Int.ediv_lt_of_lt_mul (by omega) (by rw [mul_comm]; omega)
  have hi : (i : Int) / w * w + (i : Int) % w = i := by
    rw [mul_comm]; exact Int.ediv_add_emod _ _
  have e := hall _ _ hx0 hx hy0 hy
  rw [hi] at e
  simp only [readAt, Int.toNat_ofNat, List.getElem?_eq_getElem hi1,
    List.getElem?_eq_getElem hi2] at e
  have hneg : ¬ ((i : Int) < 0) := by omega
  simp only [hneg, if_false, Except.ok.injEq] at e
  exact e

theorem savedLines_length (g : LifePanel) :
    ((savedLines g).length : Int) = 1 + (g.m_height.toNat : Int) := by
  simp [savedLines]; ring

theorem fileRow_savedLines (g : LifePanel) (y : Int) (hy0 : 0 ≤ y) (hy : y < g.m_height) :
    fileRow (savedLines g) y = String.mk (rowChars g y) := by
  have e1 : (1 + y).toNat = y.toNat + 1 := by omega
  have e2 : ((y.toNat : Nat) : Int) = y := by omega
  have e3 : y.toNat < g.m_height.toNat := by omega
  unfold fileRow savedLines
  rw [e1]
  simp [List.getD, List.getElem?_map, List.getElem?_range e3, e2]

theorem rowChars_get (g : LifePanel) (x y : Int) (hx0 : 0 ≤ x) (hx : x < g.m_width) :
    (rowChars g y)[x.toNat]? =
      some (if isAlive (readAt g.m_current (y * g.m_width + x)) then '1' else '0') := by
  have e2 : ((x.toNat : Nat) : Int) = x := by omega
  have e3 : x.toNat < g.m_width.toNat := by omega
  unfold rowChars
  simp [List.getElem?_map, List.getElem?_range e3, e2]

/-- Once the file has two lines and a header of two tokens, neither `ToLong` call has faulted
and they left `w` and `h`, and the optional resize has produced `g1` whose live buffer has
`width * height` cells, `LoadUniverse` returns true with generation 0; the live buffer holds
the characters of the file where it has some, and the cells of `g1` elsewhere. -/
theorem LoadUniverse_spec (g g1 : LifePanel) (lines : List String) (resizeToFile : Bool)
    (w h : Int) (hl : ¬ lines.length < 2) (hp : (wxSplit (lines.getD 0 "") ' ').length ≥ 2)
    (hw : toLongInto 0 ((wxSplit (lines.getD 0 "") ' ').getD 0 "") = .ok w)
    (hh : toLongInto 0 ((wxSplit (lines.getD 0 "") ' ').getD 1 "") = .ok h)
    (hres : (if resizeToFile then ResizeUniverse g w h else .ok g) = .ok g1)
    (hc : (g1.m_current.length : Int) = g1.m_width * g1.m_height) :
    ∃ cur, LoadUniverse g (some lines) resizeToFile =
        .ok (true, { g1 with m_current := cur, m_generation := 0 }) ∧
      cur.length = g1.m_current.length ∧
      (∀ x y c, 0 ≤ x → x < g1.m_width → 0 ≤ y → y < g1.m_height →
        y < (lines.length : Int) - 1 → (fileRow lines y).toList[x.toNat]? = some c →
        readAt cur (y * g1.m_width + x) = .ok (c == '1')) ∧
      (∀ x y, 0 ≤ x → x < g1.m_width → 0 ≤ y → y < g1.m_height →
        ((lines.length : Int) - 1 ≤ y ∨ ((fileRow lines y).length : Int) ≤ x) →
        readAt cur (y * g1.m_width + x) = readAt g1.m_current (y * g1.m_width + x)) := by
  obtain ⟨cur, h1, h2, h3, h4⟩ := loadRows_spec lines g1 hc
  refine ⟨cur, ?_, h2, h3, h4⟩
  unfold LoadUniverse
  simp only [hl, if_false, hp, if_true, hw, hh, hres, h1]

/-! ## One generation on the torus, and the four phases of the glider -/

theorem Shows_aliveAt (g : LifePanel) (P : Int → Int → Bool) (hg : Shows g P) (a b : Int) :
    aliveAt g a b = .ok (P (mod a 20) (mod b 20)) := by
  obtain ⟨hw, hh, hb, _, _, hr⟩ := hg
  have ha := mod_range a 20 (by decide)
  have hb' := mod_range b 20 (by decide)
  unfold aliveAt
  simp only [hb, if_false, hw, hh]
  exact hr _ _ ha.1 ha.2 hb'.1 hb'.2

/-- One call of `NextGeneration` on a grid showing `P` returns a grid showing the next
generation of `P` on the torus. -/
theorem Shows_step (g : LifePanel) (P : Int → Int → Bool) (hg : Shows g P) :
    ∃ g', NextGeneration g = .ok g' ∧ Shows g' (torusStep P) ∧
      g'.m_generation = wrapLong (g.m_generation + 1) ∧ g'.m_boundary = g.m_boundary := by
  have hg' := hg
  obtain ⟨hw, hh, hb, hc, hn, hr⟩ := hg'
  have hwf : WellFormed g := by
    refine ⟨by omega, by omega, ?_, ?_⟩
    · rw [hw, hh, hc]; rfl
    · rw [hw, hh, hn]; rfl
  obtain ⟨nx, h1, h2, h3⟩ := NextGeneration_spec g hwf
  refine ⟨_, h1, ⟨hw, hh, hb, by simp only [h2, hn], hc, ?_⟩, rfl, rfl⟩
  intro x y hx0 hx hy0 hy
  have e := h3 x y hx0 (by omega) hy0 (by omega)
  rw [hw] at e
  show readAt nx (y * 20 + x) = _
  rw [e]
  unfold ruleAt torusStep liveNeighbours
  simp only [hw, hr x y hx0 hx hy0 hy, isAlive, Shows_aliveAt g P hg]

theorem mod20 (a : Int) : mod a 20 = a % 20 := mod_eq_emod a 20 (by decide)

/-- The torus step commutes with moving the pattern. -/
theorem torusStep_shiftPat (P : Int → Int → Bool) (ox oy x y : Int) :
    torusStep (shiftPat P ox oy) x y = shiftPat (torusStep P) ox oy x y := by
  unfold torusStep shiftPat
  have e : ∀ a o i : Int, mod (mod (a + i) 20 - o) 20 = mod (mod (a - o) 20 + i) 20 := by
    intro a o i
    simp only [mod20]
    omega
  simp only [e]

theorem shiftPat_funext (P Q : Int → Int → Bool)
    (h : ∀ u v, 0 ≤ u → u < 20 → 0 ≤ v → v < 20 → P u v = Q u v) (ox oy x y : Int) :
    shiftPat P ox oy x y = shiftPat Q ox oy x y := by
  have hx := mod_range (x - ox) 20 (by decide)
  have hy := mod_range (y - oy) 20 (by decide)
  exact h _ _ hx.1 hx.2 hy.1 hy.2

theorem Shows_congr (g : LifePanel) (P Q : Int → Int → Bool) (hg : Shows g P)
    (h : ∀ x y, 0 ≤ x → x < 20 → 0 ≤ y → y < 20 → P x y = Q x y) : Shows g Q := by
  obtain ⟨hw, hh, hb, hc, hn, hr⟩ := hg
  refine ⟨hw, hh, hb, hc, hn, ?_⟩
  intro x y hx0 hx hy0 hy
  rw [hr x y hx0 hx hy0 hy, h x y hx0 hx hy0 hy]

theorem fin20_cases (Q : Int → Int → Prop)
    (h : ∀ u : Fin 20, ∀ v : Fin 20, Q ((u.val : Nat) : Int) ((v.val : Nat) : Int))
    (u v : Int) (hu0 : 0 ≤ u) (hu : u < 20) (hv0 : 0 ≤ v) (hv : v < 20) : Q u v := by
  have := h ⟨u.toNat, by omega⟩ ⟨v.toNat, by omega⟩
  have eu : ((u.toNat : Nat) : Int) = u := by omega
  have ev : ((v.toNat : Nat) : Int) = v := by omega
  simp only [eu, ev] at this
  exact this

set_option maxRecDepth 100000 in
theorem glider_phase1 : ∀ u : Fin 20, ∀ v : Fin 20,
    torusStep (memFn glider) ((u.val : Nat) : Int) ((v.val : Nat) : Int) =
      memFn gliderPhase1 ((u.val : Nat) : Int) ((v.val : Nat) : Int) := by
  decide

set_option maxRecDepth 100000 in
theorem glider_phase2 : ∀ u : Fin 20, ∀ v : Fin 20,
    torusStep (memFn gliderPhase1) ((u.val : Nat) : Int) ((v.val : Nat) : Int) =
      memFn gliderPhase2 ((u.val : Nat) : Int) ((v.val : Nat) : Int) := by
  decide

set_option maxRecDepth 100000 in
theorem glider_phase3 : ∀ u : Fin 20, ∀ v : Fin 20,
    torusStep (memFn gliderPhase2) ((u.val : Nat) : Int) ((v.val : Nat) : Int) =
      memFn gliderPhase3 ((u.val : Nat) : Int) ((v.val : Nat) : Int) := by
  decide

set_option maxRecDepth 100000 in
theorem glider_phase4 : ∀ u : Fin 20, ∀ v : Fin 20,
    torusStep (memFn gliderPhase3) ((u.val : Nat) : Int) ((v.val : Nat) : Int) =
      shiftPat (memFn glider) 1 1 ((u.val : Nat) : Int) ((v.val : Nat) : Int) := by
  decide

/-- A step of a moved pattern whose unmoved step is known on the torus. -/
theorem Shows_phase (g : LifePanel) (P Q : Int → Int → Bool) (ox oy : Int)
    (hg : Shows g (shiftPat P ox oy))
    (hPQ : ∀ u : Fin 20, ∀ v : Fin 20,
      torusStep P ((u.val : Nat) : Int) ((v.val : Nat) : Int) =
        Q ((u.val : Nat) : Int) ((v.val : Nat) : Int)) :
    ∃ g', NextGeneration g = .ok g' ∧ Shows g' (shiftPat Q ox oy) ∧
      g'.m_generation = wrapLong (g.m_generation + 1) ∧ g'.m_boundary = g.m_boundary := by
  obtain ⟨g', h1, h2, h3, h4⟩ := Shows_step g _ hg
  refine ⟨g', h1, Shows_congr g' _ _ h2 ?_, h3, h4⟩
  intro x y _ _ _ _
  rw [torusStep_shiftPat]
  exact shiftPat_funext _ _ (fin20_cases (fun u v => torusStep P u v = Q u v) hPQ) ox oy x y

theorem shiftPat_shiftPat_one (P : Int → Int → Bool) (ox oy x y : Int) :
    shiftPat (shiftPat P 1 1) ox oy x y = shiftPat P (ox + 1) (oy + 1) x y := by
  unfold shiftPat
  have e : ∀ a o : Int, mod (mod (a - o) 20 - 1) 20 = mod (a - (o + 1)) 20 := by
    intro a o
    simp only [mod20]
    omega
  simp only [e]

theorem wrap_back (a o x : Int) (ha0 : 0 ≤ a) (ha : a < 20) (h : mod (a + o) 20 = x) :
    mod (x - o) 20 = a := by
  simp only [mod20] at h ⊢
  omega

theorem wrap_forth (o x : Int) (hx0 : 0 ≤ x) (hx : x < 20) :
    mod (mod (x - o) 20 + o) 20 = x := by
  simp only [mod20]
  omega

/-- On the torus, the cell `(x, y)` belongs to a pattern translated by `(ox, oy)` exactly when
moving it back by `(ox, oy)` gives a cell of the pattern. -/
theorem shiftPat_translated (cells : List (Int × Int))
    (hcells : ∀ p ∈ cells, 0 ≤ p.1 ∧ p.1 < 20 ∧ 0 ≤ p.2 ∧ p.2 < 20) (ox oy x y : Int)
    (hx0 : 0 ≤ x) (hx : x < 20) (hy0 : 0 ≤ y) (hy : y < 20) :
    shiftPat (memFn cells) ox oy x y = decide ((x, y) ∈ translated cells ox oy) := by
  unfold shiftPat memFn translated
  rw [decide_eq_decide, List.mem_map]
  constructor
  · intro h
    exact ⟨_, h, by simp only [wrap_forth ox x hx0 hx, wrap_forth oy y hy0 hy]⟩
  · rintro ⟨p, hp, he⟩
    obtain ⟨h1, h2, h3, h4⟩ := hcells p hp
    rw [Prod.mk.injEq] at he
    rw [wrap_back p.1 ox x h1 h2 he.1, wrap_back p.2 oy y h3 h4 he.2]
    exact hp

theorem shiftPat_glider (ox oy x y : Int) (hx0 : 0 ≤ x) (hx : x < 20) (hy0 : 0 ≤ y)
    (hy : y < 20) :
    shiftPat (memFn glider) ox oy x y = decide ((x, y) ∈ translated glider ox oy) :=
  shiftPat_translated glider (by decide) ox oy x y hx0 hx hy0 hy

theorem torusBuffer_read (f : Int → Int → Bool) (x y : Int) (hx0 : 0 ≤ x) (hx : x < 20)
    (hy0 : 0 ≤ y) (hy : y < 20) : readAt (torusBuffer f) (y * 20 + x) = .ok (f x y) := by
  have h0 : ¬ (y * 20 + x < 0) := by omega
  have h1 : (y * 20 + x).toNat < 400 := by omega
  have e1 : (((y * 20 + x).toNat % 20 : Nat) : Int) = x := by omega
  have e2 : (((y * 20 + x).toNat / 20 : Nat) : Int) = y := by omega
  unfold readAt torusBuffer
  simp only [h0, if_false, List.getElem?_map, List.getElem?_range h1, Option.map_some', e1, e2]

theorem torusBuffer_length (f : Int → Int → Bool) : (torusBuffer f).length = 400 := by
  simp [torusBuffer]

theorem gliderGrid_current (ox oy gen : Int) (scratch : List Bool) :
    (gliderGrid ox oy gen scratch).m_current =
      torusBuffer (fun x y => decide ((x, y) ∈ translated glider ox oy)) := rfl

theorem gliderGrid_shows (ox oy gen : Int) (scratch : List Bool) (hs : scratch.length = 400) :
    Shows (gliderGrid ox oy gen scratch) (shiftPat (memFn glider) ox oy) := by
  have hb : (gliderGrid ox oy gen scratch).m_boundary ≠ "Finite" := by
    show "Toroidal" ≠ "Finite"
    decide
  refine ⟨rfl, rfl, hb, by rw [gliderGrid_current, torusBuffer_length], hs, ?_⟩
  intro x y hx0 hx hy0 hy
  rw [shiftPat_glider ox oy x y hx0 hx hy0 hy, gliderGrid_current,
    torusBuffer_read _ x y hx0 hx hy0 hy]

/-! ## Claims about `NextGeneration` -/

/-- C1. On a grid with positive sides and both buffers of `width * height` cells, under any
boundary mode, `NextGeneration` returns a grid in which every cell `(x, y)` is alive exactly
when, in the grid before the call, the cell was alive with 2 or 3 alive neighbours or dead
with exactly 3, the neighbours being counted through `aliveAt` on the grid before the call. -/
theorem nextGeneration_applies_rule_to_snapshot (g : LifePanel) (hw : 1 ≤ g.m_width)
    (hh : 1 ≤ g.m_height) (hc : (g.m_current.length : Int) = g.m_width * g.m_height)
    (hn : (g.m_next.length : Int) = g.m_width * g.m_height) :
    ∃ g', NextGeneration g = .ok g' ∧
      ∀ x y, 0 ≤ x → x < g.m_width → 0 ≤ y → y < g.m_height →
        ∃ before after, readAt g.m_current (y * g.m_width + x) = .ok before ∧
          readAt g'.m_current (y * g.m_width + x) = .ok after ∧
          (after = true ↔
            (before = true ∧ (liveNeighbours g x y = 2 ∨ liveNeighbours g x y = 3)) ∨
            (before = false ∧ liveNeighbours g x y = 3)) := by
  obtain ⟨nx, h1, _, h3⟩ := NextGeneration_spec g ⟨hw, hh, hc, hn⟩
  refine ⟨_, h1, ?_⟩
  intro x y hx0 hx hy0 hy
  have hr := index_range g.m_width g.m_height x y hx0 hx hy0 hy
  obtain ⟨c, hcur⟩ := readAt_of_lt g.m_current (y * g.m_width + x) hr.1 (by omega)
  refine ⟨c, ruleAt g x y, hcur, h3 x y hx0 hx hy0 hy, ?_⟩
  simp only [ruleAt, hcur, isAlive]
  exact nextState_true_iff c (liveNeighbours g x y)

/-- C1, on a fixture: a horizontal row of three alive cells becomes the vertical column of
three alive cells through the same centre, and the general statement applies to it. -/
theorem nextGeneration_applies_rule_to_snapshot_witness :
    NextGeneration blinkerRow =
        .ok { blinkerRow with m_current := blinkerColumn, m_next := blinkerRow.m_current,
                              m_generation := 1 } ∧
      ∃ g', NextGeneration blinkerRow = .ok g' ∧
        ∀ x y, 0 ≤ x → x < blinkerRow.m_width → 0 ≤ y → y < blinkerRow.m_height →
          ∃ before after,
            readAt blinkerRow.m_current (y * blinkerRow.m_width + x) = .ok before ∧
            readAt g'.m_current (y * blinkerRow.m_width + x) = .ok after ∧
            (after = true ↔
              (before = true ∧
                (liveNeighbours blinkerRow x y = 2 ∨ liveNeighbours blinkerRow x y = 3)) ∨
              (before = false ∧ liveNeighbours blinkerRow x y = 3)) :=
  ⟨by decide, nextGeneration_applies_rule_to_snapshot blinkerRow (by decide) (by decide)
    (by decide) (by decide)⟩

/-- C2 (counterexample): on the grid whose generation counter holds `LONG_MAX`, one call of
`NextGeneration` returns a grid whose counter is `LONG_MIN`: not the previous value plus 1, and
smaller than before. -/
theorem generation_wraps_at_long_max :
    ∃ g', NextGeneration atLongMax = .ok g' ∧ g'.m_generation = LONG_MIN ∧
      g'.m_generation ≠ atLongMax.m_generation + 1 ∧
      g'.m_generation < atLongMax.m_generation := by
  obtain ⟨g', h1, _, h2, _⟩ := NextGeneration_wellFormed atLongMax (by decide)
  have e : g'.m_generation = LONG_MIN := by rw [h2]; decide
  refine ⟨g', h1, e, ?_, ?_⟩
  · rw [e]; decide
  · rw [e]; decide

/-- C2 (amended): while the generation counter stays in the range of `long`, that is from a
generation `v` with `v + n ≤ LONG_MAX`, whenever a call of `NextGeneration` returns the counter
is the previous one plus exactly 1; whenever `m ≤ n` calls in a row return it is `v + m`, hence
never smaller than before; and on a grid satisfying the data model the `n` calls do return. -/
theorem generation_advances_by_one_below_long_max (g : LifePanel) (n : Nat)
    (hlo : LONG_MIN ≤ g.m_generation) (hhi : g.m_generation + n ≤ LONG_MAX) :
    (g.m_generation < LONG_MAX →
      ∀ g', NextGeneration g = .ok g' → g'.m_generation = g.m_generation + 1) ∧
    (∀ m : Nat, m ≤ n → ∀ g', stepN m g = .ok g' →
      g'.m_generation = g.m_generation + m ∧ g.m_generation ≤ g'.m_generation) ∧
    (WellFormed g → ∃ g', stepN n g = .ok g' ∧ g'.m_generation = g.m_generation + n) := by
  refine ⟨fun hlt g' h => ?_, fun m hm g' h => ?_, fun hg => ?_⟩
  · rw [NextGeneration_generation g g' h]
    exact wrapLong_of_range _ (by omega) (by omega)
  · have e := stepN_generation m g g' hlo (by omega) h
    exact ⟨e, by omega⟩
  · obtain ⟨g', h1, _⟩ := stepN_wellFormed n g hg
    exact ⟨g', h1, stepN_generation n g g' hlo hhi h1⟩

/-- C2 (amended), on a fixture: three steps of the 5x5 blinker grid return and leave
generation 3. -/
theorem generation_advances_by_one_below_long_max_witness :
    WellFormed blinkerRow ∧
      ∃ g', stepN 3 blinkerRow = .ok g' ∧ g'.m_generation = blinkerRow.m_generation + 3 :=
  ⟨by decide,
   (generation_advances_by_one_below_long_max blinkerRow 3 (by decide) (by decide)).2.2
     (by decide)⟩

/-- C7. On a grid with positive sides and both buffers of `width * height` cells, under any
boundary mode, every `aliveAt` lookup at any integer coordinate succeeds, the wrapped index
of a toroidal lookup lies in `[0, width * height)`, `NextGeneration` returns a grid (no
out-of-range access happens) that again satisfies the data model, and so does any number of
calls in a row. -/
theorem nextGeneration_never_faults (g : LifePanel) (hw : 1 ≤ g.m_width)
    (hh : 1 ≤ g.m_height) (hc : (g.m_current.length : Int) = g.m_width * g.m_height)
    (hn : (g.m_next.length : Int) = g.m_width * g.m_height) :
    (∀ x y, ∃ b, aliveAt g x y = .ok b) ∧
    (∀ x y, 0 ≤ mod y g.m_height * g.m_width + mod x g.m_width ∧
      mod y g.m_height * g.m_width + mod x g.m_width < g.m_width * g.m_height) ∧
    (∃ g', NextGeneration g = .ok g' ∧ WellFormed g') ∧
    (∀ n, ∃ g', stepN n g = .ok g') := by
  have hg : WellFormed g := ⟨hw, hh, hc, hn⟩
  refine ⟨aliveAt_ok g hw hh hc, fun x y => ?_, ?_, fun n => ?_⟩
  · have hx := mod_range x g.m_width hw
    have hy := mod_range y g.m_height hh
    exact index_range g.m_width g.m_height _ _ hx.1 hx.2 hy.1 hy.2
  · obtain ⟨g', h1, h2, _⟩ := NextGeneration_wellFormed g hg
    exact ⟨g', h1, h2⟩
  · obtain ⟨g', h1, _⟩ := stepN_wellFormed n g hg
    exact ⟨g', h1⟩

/-- C7, on fixtures: the statement applies to the all-alive 3x3 grid under both boundary
modes, whereas a grid whose live buffer is shorter than `width * height` does fault. -/
theorem nextGeneration_never_faults_witness :
    NextGeneration shortBuffer = .error .outOfRange ∧
    (∀ n, ∃ g', stepN n (full3 "Finite") = .ok g') ∧
    (∀ n, ∃ g', stepN n (full3 "Toroidal") = .ok g') ∧
    aliveAt (full3 "Toroidal") (-1) 3 = .ok true ∧
    aliveAt (full3 "Finite") (-1) 3 = .ok false :=
  ⟨by decide,
   (nextGeneration_never_faults (full3 "Finite") (by decide) (by decide) (by decide)
      (by decide)).2.2.2,
   (nextGeneration_never_faults (full3 "Toroidal") (by decide) (by decide) (by decide)
      (by decide)).2.2.2,
   by decide, by decide⟩

/-- C8. For a modulus `m ≥ 1` and any integer `a`, `mod a m` equals `((a % m) + m) % m` with
the truncating remainder, equals the floored remainder, and lies in `[0, m)`; and on a grid
with positive sides whose boundary mode is not "Finite", `aliveAt g x y` reads the live
buffer at the floored remainders of `x` and `y`. -/
theorem mod_is_floored_modulo (a m : Int) (hm : 1 ≤ m) (g : LifePanel) (x y : Int)
    (hb : g.m_boundary ≠ "Finite") (hw : 1 ≤ g.m_width) (hh : 1 ≤ g.m_height) :
    mod a m = Int.tmod (Int.tmod a m + m) m ∧ mod a m = Int.fmod a m ∧
    0 ≤ mod a m ∧ mod a m < m ∧
    aliveAt g x y =
      readAt g.m_current (Int.fmod y g.m_height * g.m_width + Int.fmod x g.m_width) := by
  refine ⟨mod_eq_spec_formula a m hm, ?_, (mod_range a m hm).1, (mod_range a m hm).2, ?_⟩
  · rw [mod_eq_emod a m hm, Int.fmod_eq_emod a (by omega)]
  · unfold aliveAt
    simp only [hb, if_false]
    rw [mod_eq_emod x _ hw, mod_eq_emod y _ hh, Int.fmod_eq_emod x (by omega),
      Int.fmod_eq_emod y (by omega)]

/-- C8, on fixtures: `mod (-1) 3 = 2`; on a 3x3 toroidal grid the eight neighbour offsets of
`(0, 0)` wrap to the eight other cells, each once, `(-1, -1)` reading cell `(2, 2)`; and all
eight neighbours of `(0, 0)` are counted on the all-alive torus. -/
theorem mod_is_floored_modulo_witness :
    (mod (-1) 3 = 2 ∧ aliveAt cornerOnly3 (-1) (-1) = .ok true) ∧
    neighbourOffsets.map (fun p => (mod (0 + p.1) 3, mod (0 + p.2) 3)) =
      [(2, 2), (0, 2), (1, 2), (2, 0), (1, 0), (2, 1), (0, 1), (1, 1)] ∧
    liveNeighbours cornerOnly3 0 0 = 1 ∧ liveNeighbours (full3 "Toroidal") 0 0 = 8 :=
  ⟨by
    have h := mod_is_floored_modulo (-1) 3 (by decide) cornerOnly3 (-1) (-1) (by decide)
      (by decide) (by decide)
    exact ⟨by decide, by rw [h.2.2.2.2]; decide⟩,
   by decide, by decide, by decide⟩

/-- C9. Under the "Finite" boundary mode `aliveAt g x y` is dead for every coordinate outside
`[0, width) × [0, height)` and is the read of the live buffer at `y * width + x` inside, so the
neighbour count of a cell is the number of alive cells among its neighbours inside the grid. -/
theorem finite_boundary_counts_grid_cells_only (g : LifePanel) (x y : Int)
    (hb : g.m_boundary = "Finite") :
    ((x < 0 ∨ g.m_width ≤ x ∨ y < 0 ∨ g.m_height ≤ y) → aliveAt g x y = .ok false) ∧
    ((0 ≤ x ∧ x < g.m_width ∧ 0 ≤ y ∧ y < g.m_height) →
      aliveAt g x y = readAt g.m_current (y * g.m_width + x)) ∧
    liveNeighbours g x y =
      (neighbourOffsets.filter (fun p => inGrid g (x + p.1) (y + p.2))).countP
        (fun p => isAlive (readAt g.m_current ((y + p.2) * g.m_width + (x + p.1)))) := by
  refine ⟨fun ho => ?_, fun hi => ?_, ?_⟩
  · unfold aliveAt
    have ho' : x < 0 ∨ x ≥ g.m_width ∨ y < 0 ∨ y ≥ g.m_height := by omega
    simp only [hb, if_true, ho']
  · unfold aliveAt
    have ho' : ¬ (x < 0 ∨ x ≥ g.m_width ∨ y < 0 ∨ y ≥ g.m_height) := by omega
    simp only [hb, if_true, ho', if_false]
  · rw [List.countP_filter]
    unfold liveNeighbours
    congr 1
    funext p
    rw [aliveAt_finite_eq g hb, Bool.and_comm]

/-- C9, on a fixture: on the all-alive 3x3 finite grid the corner `(0, 0)` has 3 alive
neighbours and the edge cell `(1, 0)` has 5; after one step the corner is alive and the edge
cell is dead. -/
theorem finite_boundary_counts_grid_cells_only_witness :
    (liveNeighbours (full3 "Finite") 0 0 = 3 ∧ liveNeighbours (full3 "Finite") 1 0 = 5) ∧
    (∃ g', NextGeneration (full3 "Finite") = .ok g' ∧
      readAt g'.m_current (0 * 3 + 0) = .ok true ∧
      readAt g'.m_current (0 * 3 + 1) = .ok false) ∧
    aliveAt (full3 "Finite") (-1) 0 = .ok false ∧
    liveNeighbours (full3 "Finite") 0 0 =
      (neighbourOffsets.filter (fun p => inGrid (full3 "Finite") (0 + p.1) (0 + p.2))).countP
        (fun p => isAlive (readAt (full3 "Finite").m_current
          ((0 + p.2) * (full3 "Finite").m_width + (0 + p.1)))) :=
  ⟨by decide, ⟨_, rfl, by decide, by decide⟩,
   (finite_boundary_counts_grid_cells_only (full3 "Finite") (-1) 0 rfl).1 (by decide),
   (finite_boundary_counts_grid_cells_only (full3 "Finite") 0 0 rfl).2.2⟩

/-! ## Claims about resizing and loading -/

/-- C4 (behaviour of the code at headers that are not two positive integers): with the header
"abc def", in which `ToLong` finds no number, `LoadUniverse` without resizing returns true,
overwrites cells and resets the generation, and with resizing it returns true and leaves a 0x0
grid at generation 0; with the headers "0 0" and "-3 -1" the call of `ToLong` stores through
the cast pointer, which is a fault and not a returned failure; only a header of fewer than two
tokens is rejected with the grid unchanged. -/
theorem loadUniverse_accepts_unparsable_header :
    LoadUniverse dest2 (some ["abc def", "01"]) false =
      .ok (true, { dest2 with m_current := [false, true, false, true], m_generation := 0 }) ∧
    LoadUniverse dest2 (some ["abc def", "01"]) true =
      .ok (true, { m_width := 0, m_height := 0, m_current := [], m_next := [],
                   m_generation := 0, m_boundary := "Toroidal" }) ∧
    LoadUniverse dest2 (some ["0 0", "11"]) true = .error .badStore ∧
    LoadUniverse dest2 (some ["-3 -1", "01"]) true = .error .badStore ∧
    LoadUniverse dest2 (some ["7", "01"]) true = .ok (false, dest2) := by
  refine ⟨by decide, by decide, by decide, by decide, by decide⟩

/-- C5 (counterexample): `ResizeUniverse` called with width 0 does not fail; it returns a
grid whose width, cell buffer and generation all differ from those before the call. -/
theorem resizeUniverse_accepts_zero_width :
    ∃ g', ResizeUniverse dest2 0 5 = .ok g' ∧ g'.m_width ≠ dest2.m_width ∧
      g'.m_height ≠ dest2.m_height ∧ g'.m_current ≠ dest2.m_current ∧
      g'.m_generation ≠ dest2.m_generation :=
  ⟨_, rfl, by decide, by decide, by decide, by decide⟩

/-- C5 (amended): `ResizeUniverse` checks nothing.  For every `w` and `h` whose product is
not negative and fits an `int`, so also for a zero side, it succeeds and sets the sides to `w`
and `h`, both buffers to `w * h` dead cells and the generation to 0, leaving the boundary mode
alone. -/
theorem resizeUniverse_sets_dimensions_unchecked (g : LifePanel) (w h : Int)
    (hwh : 0 ≤ w * h) (hmax : w * h ≤ INT_MAX) :
    ResizeUniverse g w h =
      .ok { m_width := w, m_height := h,
            m_current := List.replicate (w * h).toNat false,
            m_next := List.replicate (w * h).toNat false,
            m_generation := 0, m_boundary := g.m_boundary } :=
  resizeUniverse_effect g w h hwh hmax

/-- C5 (amended), on fixtures: resizing the 2x2 grid to 0x5 and to 3x2; and, beyond the range
of the `int` product, 46341x46341 makes `assign` throw and 65536x65536 leaves no cells. -/
theorem resizeUniverse_sets_dimensions_unchecked_witness :
    ResizeUniverse dest2 0 5 =
      .ok { m_width := 0, m_height := 5, m_current := [], m_next := [],
            m_generation := 0, m_boundary := "Toroidal" } ∧
    ResizeUniverse dest2 3 2 =
      .ok { m_width := 3, m_height := 2,
            m_current := List.replicate ((3 : Int) * 2).toNat false,
            m_next := List.replicate ((3 : Int) * 2).toNat false,
            m_generation := 0, m_boundary := dest2.m_boundary } ∧
    ResizeUniverse dest2 46341 46341 = .error .badLength ∧
    ResizeUniverse dest2 65536 65536 =
      .ok { m_width := 65536, m_height := 65536, m_current := [], m_next := [],
            m_generation := 0, m_boundary := "Toroidal" } :=
  ⟨by decide, resizeUniverse_sets_dimensions_unchecked dest2 3 2 (by decide) (by decide),
   by decide, by decide⟩

/-- C6. For every file of fewer than two lines and both values of `resizeToFile`,
`LoadUniverse` returns false and the panel state (sides, both buffers, generation and boundary
mode) is exactly the state before the call. -/
theorem loadUniverse_rejects_short_file (g : LifePanel) (lines : List String)
    (resizeToFile : Bool) (hlen : lines.length < 2) :
    LoadUniverse g (some lines) resizeToFile = .ok (false, g) := by
  simp [LoadUniverse, hlen]

/-- C6, on fixtures: the empty file and a file holding only a header. -/
theorem loadUniverse_rejects_short_file_witness :
    LoadUniverse dest2 (some []) true = .ok (false, dest2) ∧
    LoadUniverse dest2 (some ["3 3"]) false = .ok (false, dest2) :=
  ⟨loadUniverse_rejects_short_file dest2 [] true (by decide),
   loadUniverse_rejects_short_file dest2 ["3 3"] false (by decide)⟩

/-! ## Claim about the round trip through the text format -/

theorem headerSize_some (header : String) (w h : Int)
    (hs : headerSize header = some (w, h)) :
    (wxSplit header ' ').length ≥ 2 ∧
      strtol ((wxSplit header ' ').getD 0 "").toList = some w ∧
      strtol ((wxSplit header ' ').getD 1 "").toList = some h := by
  unfold headerSize at hs
  by_cases hp : (wxSplit header ' ').length ≥ 2
  · simp only [hp, if_true] at hs
    cases h0 : strtol ((wxSplit header ' ').getD 0 "").toList with
    | none => rw [h0] at hs; simp at hs
    | some a =>
      cases h1 : strtol ((wxSplit header ' ').getD 1 "").toList with
      | none => rw [h0, h1] at hs; simp at hs
      | some b =>
        rw [h0, h1] at hs
        simp only [Option.some.injEq, Prod.mk.injEq] at hs
        exact ⟨hp, by rw [hs.1], by rw [hs.2]⟩
  · simp only [hp, if_false] at hs
    exact absurd hs (by simp)

/-- Every file of two lines or more whose header declares two positive `int` sides makes
`LoadUniverse` store through the cast pointer, with and without resizing. -/
theorem LoadUniverse_valid_header_faults (g : LifePanel) (lines : List String)
    (resizeToFile : Bool) (hl : 2 ≤ lines.length) (hv : ValidHeader (lines.getD 0 "")) :
    LoadUniverse g (some lines) resizeToFile = .error .badStore := by
  obtain ⟨w, h, hw1, hw2, _, _, hs⟩ := hv
  obtain ⟨hp, h0, _⟩ := headerSize_some _ w h hs
  have hl' : ¬ lines.length < 2 := by omega
  have hrange : LONG_MIN ≤ w ∧ w ≤ LONG_MAX := by
    unfold INT_MAX at hw2
    unfold LONG_MIN LONG_MAX
    omega
  have hf : toLongInto 0 ((wxSplit (lines.getD 0 "") ' ').getD 0 "") = .error .badStore := by
    unfold toLongInto
    rw [h0]
    simp only [hrange, and_self, if_true]
  unfold LoadUniverse
  simp only [hl', if_false, hp, if_true, hf]

/-- The header written by `SaveUniverse` for a grid with positive sides is valid. -/
theorem savedLines_header_valid (g : LifePanel) (hw : 1 ≤ g.m_width)
    (hw2 : g.m_width ≤ INT_MAX) (hh : 1 ≤ g.m_height) (hh2 : g.m_height ≤ INT_MAX) :
    ValidHeader ((savedLines g).getD 0 "") := by
  have hhead : (savedLines g).getD 0 "" = formatHeader g.m_width g.m_height := rfl
  obtain ⟨a1, a2, a3⟩ := formatInt_spec g.m_width (by omega)
  obtain ⟨b1, b2, b3⟩ := formatInt_spec g.m_height (by omega)
  refine ⟨g.m_width, g.m_height, hw, hw2, hh, hh2, ?_⟩
  rw [hhead]
  unfold headerSize
  rw [wxSplit_formatHeader g.m_width g.m_height (by omega) (by omega)]
  simp only [List.length_cons, List.length_nil, List.getD_cons_zero, List.getD_cons_succ,
    strtol_digits _ a1 a2, strtol_digits _ b1 b2, a3, b3]
  rfl

/-- C3 (behaviour of the code at a saved file): `SaveUniverse` writes the six lines of the 5x5
blinker grid, and `LoadUniverse` on these lines, with or without resizing, reaches the call
`parts[0].ToLong((long*)&w)` with a token that holds a number, so it stores a `long` through a
pointer to an `int`: a fault, where the claim has the load succeed and restore the grid. -/
theorem load_of_saved_file_stores_through_cast_pointer :
    SaveUniverse blinkerRow true = .ok (true, blinkerFile) ∧
    savedLines blinkerRow = blinkerFile ∧
    LoadUniverse dest2 (some blinkerFile) true = .error .badStore ∧
    LoadUniverse dest2 (some blinkerFile) false = .error .badStore ∧
    toLongInto 0 "5" = .error .badStore :=
  ⟨by decide, by decide, by decide, by decide, by decide⟩

/-! ## Claim about the glider -/

/-- C10. On the 20x20 toroidal grid, for every offset `(ox, oy)`, every value of the generation
counter and every scratch buffer of 400 cells, four calls of `NextGeneration` on the grid
whose alive cells are exactly the glider translated by `(ox, oy)` return the grid whose alive
cells are exactly the glider translated by `(ox + 1, oy + 1)`, with the sides and boundary mode
unchanged; the generation counter has been incremented four times as a `long`, which is an
increase by 4 whenever the counter and its value plus 4 are in the range of `long`. -/
theorem glider_moves_diagonally_in_four_steps (ox oy gen : Int) (scratch : List Bool)
    (hs : scratch.length = 400) :
    ∃ g', stepN 4 (gliderGrid ox oy gen scratch) = .ok g' ∧
      g'.m_current = (gliderGrid (ox + 1) (oy + 1) (gen + 4) scratch).m_current ∧
      g'.m_generation = wrapLong (wrapLong (wrapLong (wrapLong (gen + 1) + 1) + 1) + 1) ∧
      (LONG_MIN ≤ gen → gen + 4 ≤ LONG_MAX → g'.m_generation = gen + 4) ∧
      g'.m_width = 20 ∧ g'.m_height = 20 ∧ g'.m_boundary = "Toroidal" := by
  obtain ⟨g1, s1, p1, n1, b1⟩ := Shows_phase _ _ _ ox oy
    (gliderGrid_shows ox oy gen scratch hs) glider_phase1
  obtain ⟨g2, s2, p2, n2, b2⟩ := Shows_phase g1 _ _ ox oy p1 glider_phase2
  obtain ⟨g3, s3, p3, n3, b3⟩ := Shows_phase g2 _ _ ox oy p2 glider_phase3
  obtain ⟨g4, s4, p4, n4, b4⟩ := Shows_phase g3 _ _ ox oy p3 glider_phase4
  have hgen : g4.m_generation =
      wrapLong (wrapLong (wrapLong (wrapLong (gen + 1) + 1) + 1) + 1) := by
    rw [n4, n3, n2, n1]
    rfl
  have hgen4 : LONG_MIN ≤ gen → gen + 4 ≤ LONG_MAX → g4.m_generation = gen + 4 := by
    intro hlo hhi
    rw [hgen, wrapLong_of_range (gen + 1) (by omega) (by omega),
      wrapLong_of_range (gen + 1 + 1) (by omega) (by omega),
      wrapLong_of_range (gen + 1 + 1 + 1) (by omega) (by omega),
      wrapLong_of_range (gen + 1 + 1 + 1 + 1) (by omega) (by omega)]
    ring
  refine ⟨g4, by simp only [stepN, s1, s2, s3, s4], ?_, hgen, hgen4, p4.1, p4.2.1, ?_⟩
  · obtain ⟨_, _, _, hc, _, hr⟩ := p4
    rw [gliderGrid_current]
    apply buffer_ext g4.m_current _ 20 20 (by decide) (by rw [hc]; rfl)
      (by rw [torusBuffer_length, hc])
    intro x y hx0 hx hy0 hy
    rw [hr x y hx0 hx hy0 hy, torusBuffer_read _ x y hx0 hx hy0 hy, shiftPat_shiftPat_one,
      shiftPat_glider (ox + 1) (oy + 1) x y hx0 hx hy0 hy]
  · rw [b4, b3, b2, b1]; rfl

/-- C10, on fixtures: the statement for the glider placed at the origin with an all-dead
scratch buffer, and for the glider placed at `(18, 19)`, where it wraps around both edges and
occupies the cells `(19, 19)`, `(0, 0)`, `(18, 1)`, `(19, 1)` and `(0, 1)`. -/
theorem glider_moves_diagonally_in_four_steps_witness :
    (∃ g', stepN 4 (gliderGrid 0 0 0 (List.replicate 400 false)) = .ok g' ∧
      g'.m_current = (gliderGrid (0 + 1) (0 + 1) (0 + 4) (List.replicate 400 false)).m_current ∧
      g'.m_generation = 0 + 4 ∧ g'.m_width = 20 ∧ g'.m_height = 20 ∧
      g'.m_boundary = "Toroidal") ∧
    (∃ g', stepN 4 (gliderGrid 18 19 7 (List.replicate 400 true)) = .ok g' ∧
      g'.m_current =
        (gliderGrid (18 + 1) (19 + 1) (7 + 4) (List.replicate 400 true)).m_current ∧
      g'.m_generation = 7 + 4 ∧ g'.m_width = 20 ∧ g'.m_height = 20 ∧
      g'.m_boundary = "Toroidal") ∧
    translated glider 18 19 = [(19, 19), (0, 0), (18, 1), (19, 1), (0, 1)] ∧
    translated glider 1 1 = [(2, 1), (3, 2), (1, 3), (2, 3), (3, 3)] := by
  refine ⟨?_, ?_, by decide, by decide⟩
  · obtain ⟨g', h1, h2, _, h4, h5, h6, h7⟩ := glider_moves_diagonally_in_four_steps 0 0 0
      (List.replicate 400 false) (List.length_replicate 400 false)
    exact ⟨g', h1, h2, h4 (by decide) (by decide), h5, h6, h7⟩
  · obtain ⟨g', h1, h2, _, h4, h5, h6, h7⟩ := glider_moves_diagonally_in_four_steps 18 19 7
      (List.replicate 400 true) (List.length_replicate 400 true)
    exact ⟨g', h1, h2, h4 (by decide) (by decide), h5, h6, h7⟩

/-! ## Claims about loading without resizing, toggling and randomizing -/

/-- C11 (behaviour of the code at a valid header without resizing): the file "5 5", "x1z",
"1", "11" has a valid header, and `LoadUniverse` without resizing still calls
`parts[0].ToLong((long*)&w)` on it, storing a `long` through a pointer to an `int`: a fault,
where the claim has the load succeed.  With a header in which `ToLong` finds no number the same
rows are copied as the claim describes: row "x1z" gives dead, alive, row "1" gives alive and
leaves `(1, 1)` as it was, the third row line is ignored and the generation is 0. -/
theorem loadUniverse_without_resize_stores_through_cast_pointer :
    headerSize "5 5" = some (5, 5) ∧
    LoadUniverse dest2 (some raggedFile) false = .error .badStore ∧
    LoadUniverse dest2 (some ["x y", "x1z", "1", "11"]) false =
      .ok (true, { dest2 with m_current := [false, true, true, true], m_generation := 0 }) :=
  ⟨by decide, by decide, by decide⟩

theorem set_self_value (l : List Bool) (i : Nat) (c : Bool) (h : l[i]? = some c) :
    l.set i c = l := by
  apply List.ext_getElem?
  intro n
  by_cases hn : i = n
  · subst hn
    rw [List.getElem?_set_self (by
      by_contra hcon
      rw [List.getElem?_eq_none (by omega)] at h
      exact absurd h (by simp)), h]
  · rw [List.getElem?_set_ne hn]

theorem readAt_ok_getElem (v : List Bool) (i : Int) (c : Bool) (h : readAt v i = .ok c) :
    0 ≤ i ∧ v[i.toNat]? = some c := by
  unfold readAt at h
  by_cases hi : i < 0
  · simp [hi] at h
  · simp only [hi, if_false] at h
    cases hq : v[i.toNat]? with
    | none => rw [hq] at h; simp at h
    | some b =>
      rw [hq] at h
      simp only [Except.ok.injEq] at h
      exact ⟨by omega, by rw [h]⟩

/-- Inside the grid `toggleCell` replaces exactly the addressed cell by its negation. -/
theorem toggleCell_inside (g : LifePanel)
    (hc : (g.m_current.length : Int) = g.m_width * g.m_height) (x y : Int) (hx0 : 0 ≤ x)
    (hx : x < g.m_width) (hy0 : 0 ≤ y) (hy : y < g.m_height) :
    ∃ c, readAt g.m_current (y * g.m_width + x) = .ok c ∧
      toggleCell g x y =
        .ok { g with m_current := g.m_current.set (y * g.m_width + x).toNat (!c) } := by
  have hr := index_range g.m_width g.m_height x y hx0 hx hy0 hy
  obtain ⟨c, hcur⟩ := readAt_of_lt g.m_current (y * g.m_width + x) hr.1 (by omega)
  have hlt : (y * g.m_width + x).toNat < g.m_current.length := by omega
  have hin : x ≥ 0 ∧ x < g.m_width ∧ y ≥ 0 ∧ y < g.m_height := ⟨hx0, hx, hy0, hy⟩
  refine ⟨c, hcur, ?_⟩
  simp only [toggleCell, hin, and_self, if_true, hcur, writeAt, not_lt.mpr hr.1, if_false, hlt]

theorem toggleCell_outside (g : LifePanel) (x y : Int)
    (ho : ¬ (0 ≤ x ∧ x < g.m_width ∧ 0 ≤ y ∧ y < g.m_height)) : toggleCell g x y = .ok g := by
  have ho' : ¬ (x ≥ 0 ∧ x < g.m_width ∧ y ≥ 0 ∧ y < g.m_height) := ho
  simp only [toggleCell, ho', if_false]

/-- C12. On a grid whose live buffer has `width * height` cells, `toggleCell` (the guarded block
that `ToggleCellAt` runs on the cell coordinate it computes) changes the grid exactly when the
coordinate is inside: for `0 ≤ x < width` and `0 ≤ y < height` it negates the cell `(x, y)`,
leaves every other cell and every other field alone, gives a grid different from the one before,
and a second call on the same coordinate restores the grid; for every other coordinate, negative
ones included, it returns the grid unchanged, so `AliveCount` is unchanged too. -/
theorem toggleCell_flips_exactly_in_range (g : LifePanel) (x y : Int)
    (hc : (g.m_current.length : Int) = g.m_width * g.m_height) :
    (∀ clientW clientH px py, g.m_width ≠ 0 → g.m_height ≠ 0 →
      ToggleCellAt g clientW clientH px py =
        toggleCell g (Int.tdiv px (max 1 (Int.tdiv clientW g.m_width)))
          (Int.tdiv py (max 1 (Int.tdiv clientH g.m_height)))) ∧
    ((0 ≤ x ∧ x < g.m_width ∧ 0 ≤ y ∧ y < g.m_height) →
      ∃ c g', readAt g.m_current (y * g.m_width + x) = .ok c ∧
        toggleCell g x y = .ok g' ∧
        g' = { g with m_current := g.m_current.set (y * g.m_width + x).toNat (!c) } ∧
        readAt g'.m_current (y * g.m_width + x) = .ok (!c) ∧
        (∀ x' y', 0 ≤ x' → x' < g.m_width → 0 ≤ y' → y' < g.m_height → (x', y') ≠ (x, y) →
          readAt g'.m_current (y' * g.m_width + x') =
            readAt g.m_current (y' * g.m_width + x')) ∧
        g' ≠ g ∧ toggleCell g' x y = .ok g) ∧
    (¬ (0 ≤ x ∧ x < g.m_width ∧ 0 ≤ y ∧ y < g.m_height) →
      toggleCell g x y = .ok g ∧
      ∀ g', toggleCell g x y = .ok g' → g' = g ∧ AliveCount g' = AliveCount g) := by
  refine ⟨?_, ?_, ?_⟩
  · intro clientW clientH px py hw hh
    simp only [ToggleCellAt, intDiv, hw, hh, if_false]
  · rintro ⟨hx0, hx, hy0, hy⟩
    have hr := index_range g.m_width g.m_height x y hx0 hx hy0 hy
    obtain ⟨c, hcur, ht⟩ := toggleCell_inside g hc x y hx0 hx hy0 hy
    have hlt : (y * g.m_width + x : Int) < g.m_current.length := by omega
    have hnew : readAt (g.m_current.set (y * g.m_width + x).toNat (!c)) (y * g.m_width + x) =
        .ok (!c) := readAt_set_self g.m_current _ _ hr.1 hlt
    refine ⟨c, _, hcur, ht, rfl, hnew, ?_, ?_, ?_⟩
    · intro x' y' hx0' hx' hy0' hy' hne
      have hr' := index_range g.m_width g.m_height x' y' hx0' hx' hy0' hy'
      have hidx : y' * g.m_width + x' ≠ y * g.m_width + x := by
        intro e
        have := index_inj g.m_width x y x' y' hx0 hx hx0' hx' e
        exact hne (by rw [this.1, this.2])
      exact readAt_set_ne g.m_current _ _ _ hr.1 hr'.1 hidx
    · intro e
      have e2 : g.m_current.set (y * g.m_width + x).toNat (!c) = g.m_current :=
        congrArg LifePanel.m_current e
      rw [e2, hcur] at hnew
      cases c <;> simp at hnew
    · obtain ⟨c', hcur', ht'⟩ := toggleCell_inside
        { g with m_current := g.m_current.set (y * g.m_width + x).toNat (!c) }
        (by simp only [List.length_set]; exact hc) x y hx0 hx hy0 hy
      have hcc : c' = !c := by
        have := hcur'.symm.trans hnew
        simpa using this
      rw [ht', hcc, Bool.not_not]
      simp only [List.set_set]
      rw [set_self_value g.m_current _ c (readAt_ok_getElem _ _ _ hcur).2]
  · intro ho
    have h := toggleCell_outside g x y ho
    refine ⟨h, ?_⟩
    intro g' hg'
    rw [h, Except.ok.injEq] at hg'
    rw [← hg']
    exact ⟨rfl, rfl⟩

/-- C12, on a fixture: on the 2x2 grid, toggling `(1, 0)` makes it alive and toggling it again
restores the grid; toggling `(-1, 0)` or `(2, 0)` does nothing; and a click at pixel `(150, 50)`
of a 200x200 client area toggles the cell `(1, 0)`. -/
theorem toggleCell_flips_exactly_in_range_witness :
    (toggleCell dest2 1 0 = .ok { dest2 with m_current := [true, true, false, true] } ∧
      toggleCell { dest2 with m_current := [true, true, false, true] } 1 0 = .ok dest2 ∧
      ToggleCellAt dest2 200 200 150 50 =
        .ok { dest2 with m_current := [true, true, false, true] }) ∧
    (toggleCell dest2 (-1) 0 = .ok dest2 ∧
      ∀ g', toggleCell dest2 (-1) 0 = .ok g' → g' = dest2 ∧ AliveCount g' = AliveCount dest2) ∧
    toggleCell dest2 2 0 = .ok dest2 ∧
    ∃ c g', readAt dest2.m_current (0 * dest2.m_width + 1) = .ok c ∧
      toggleCell dest2 1 0 = .ok g' ∧
      g' = { dest2 with
             m_current := dest2.m_current.set (0 * dest2.m_width + 1 : Int).toNat (!c) } ∧
      readAt g'.m_current (0 * dest2.m_width + 1) = .ok (!c) ∧
      (∀ x' y', 0 ≤ x' → x' < dest2.m_width → 0 ≤ y' → y' < dest2.m_height →
        (x', y') ≠ (1, 0) →
        readAt g'.m_current (y' * dest2.m_width + x') =
          readAt dest2.m_current (y' * dest2.m_width + x')) ∧
      g' ≠ dest2 ∧ toggleCell g' 1 0 = .ok dest2 :=
  ⟨by decide,
   (toggleCell_flips_exactly_in_range dest2 (-1) 0 (by decide)).2.2 (by decide),
   by decide,
   (toggleCell_flips_exactly_in_range dest2 1 0 (by decide)).2.1 (by decide)⟩

theorem randomizeCell_inv (g : LifePanel) (rnd : Nat → Int) (percent : Int)
    (hc : (g.m_current.length : Int) = g.m_width * g.m_height) (y x : Int) (hx0 : 0 ≤ x)
    (hx : x < g.m_width) (hy0 : 0 ≤ y) (hy : y < g.m_height) (s : LifePanel × Nat)
    (hs : RandInv g rnd percent y x s) :
    ∃ s', randomizeCell rnd percent y x s = .ok s' ∧ RandInv g rnd percent y (x + 1) s' := by
  obtain ⟨s1, n⟩ := s
  obtain ⟨cur, e, hlen, hdone⟩ := hs
  simp only at e
  subst e
  have hr := index_range g.m_width g.m_height x y hx0 hx hy0 hy
  have hlt : (y * g.m_width + x).toNat < cur.length := by omega
  let v := cur.set (y * g.m_width + x).toNat (decide (Int.tmod (rnd n) 100 < percent))
  refine ⟨({ g with m_current := v }, n + 1), ?_, ?_⟩
  · simp only [randomizeCell, writeAt, not_lt.mpr hr.1, if_false, hlt, if_true]
  · refine ⟨v, rfl, by rw [List.length_set, hlen], ?_⟩
    intro x' y' hx0' hx' hy0' hy' hlex
    by_cases he : x' = x ∧ y' = y
    · obtain ⟨rfl, rfl⟩ := he
      exact ⟨n, readAt_set_self cur _ _ hr.1 (by omega)⟩
    · have hr' := index_range g.m_width g.m_height x' y' hx0' hx' hy0' hy'
      have hne : y' * g.m_width + x' ≠ y * g.m_width + x :=
        fun e => he (index_inj g.m_width x y x' y' hx0 hx hx0' hx' e)
      rw [readAt_set_ne cur _ _ _ hr.1 hr'.1 hne]
      apply hdone x' y' hx0' hx' hy0' hy'
      rcases hlex with h | ⟨h1, h2⟩
      · exact Or.inl h
      · refine Or.inr ⟨h1, ?_⟩
        rcases lt_or_eq_of_le (show x' ≤ x by omega) with h3 | h3
        · exact h3
        · exact absurd ⟨h3, h1⟩ he

theorem randomizeRow_inv (g : LifePanel) (rnd : Nat → Int) (percent : Int)
    (hc : (g.m_current.length : Int) = g.m_width * g.m_height) (y : Int) (hy0 : 0 ≤ y)
    (hy : y < g.m_height) (s : LifePanel × Nat) (hs : RandInv g rnd percent y 0 s) :
    ∃ s', forFrom (fun x s' => randomizeCell rnd percent y x s') s.1.m_width.toNat 0 s =
        .ok s' ∧ RandInv g rnd percent (y + 1) 0 s' := by
  have hw : s.1.m_width = g.m_width := by
    obtain ⟨cur, e, _, _⟩ := hs
    rw [e]
  obtain ⟨s', h1, h2⟩ := forFrom_inv (fun x s' => randomizeCell rnd percent y x s')
    (RandInv g rnd percent y) s.1.m_width.toNat 0 s hs
    (fun j t hj0 hj ht => randomizeCell_inv g rnd percent hc y j hj0
      (by rw [hw] at hj; omega) hy0 hy t ht)
  refine ⟨s', h1, ?_⟩
  obtain ⟨cur, e, hlen, hdone⟩ := h2
  refine ⟨cur, e, hlen, ?_⟩
  intro x' y' hx0' hx' hy0' hy' hlex
  apply hdone x' y' hx0' hx' hy0' hy'
  rcases hlex with h | ⟨h, h'⟩
  · rcases lt_or_eq_of_le (show y' ≤ y by omega) with h3 | h3
    · exact Or.inl h3
    · exact Or.inr ⟨h3, by rw [hw]; omega⟩
  · omega

/-- On a grid whose live buffer has `width * height` cells and whose height is not negative,
`Randomize` succeeds; it replaces the live buffer by one of the same length in which every cell
of the grid holds the outcome of one draw, and sets the generation to 0. -/
theorem Randomize_spec (g : LifePanel) (rnd : Nat → Int) (percent : Int)
    (hc : (g.m_current.length : Int) = g.m_width * g.m_height) (hh : 0 ≤ g.m_height) :
    ∃ cur, Randomize g rnd percent = .ok { g with m_current := cur, m_generation := 0 } ∧
      cur.length = g.m_current.length ∧
      ∀ x y, 0 ≤ x → x < g.m_width → 0 ≤ y → y < g.m_height →
        ∃ k, readAt cur (y * g.m_width + x) =
          .ok (decide (Int.tmod (rnd k) 100 < percent)) := by
  have h0 : RandInv g rnd percent 0 0 (g, 0) :=
    ⟨g.m_current, rfl, rfl, fun x' y' _ _ hy0' _ hlex => by omega⟩
  obtain ⟨s', h1, cur, e, hlen, hdone⟩ := forFrom_inv
    (fun y s => forFrom (fun x s' => randomizeCell rnd percent y x s') s.1.m_width.toNat 0 s)
    (fun y s => RandInv g rnd percent y 0 s) g.m_height.toNat 0 (g, 0) h0
    (fun j t hj0 hj ht => randomizeRow_inv g rnd percent hc j hj0 (by omega) t ht)
  refine ⟨cur, ?_, hlen, ?_⟩
  · unfold Randomize
    simp only [h1, e]
  · intro x y hx0 hx hy0 hy
    exact hdone x y hx0 hx hy0 hy (Or.inl (by omega))

theorem readAt_replicate (n : Nat) (b : Bool) (i : Int) (h0 : 0 ≤ i) (h1 : i < n) :
    readAt (List.replicate n b) i = .ok b := by
  have h2 : i.toNat < n := by omega
  simp [readAt, not_lt.mpr h0, List.getElem?_replicate, h2]

theorem foldl_count_replicate (n : Nat) (b : Bool) : ∀ c : Int,
    (List.replicate n b).foldl (fun c v => if v then c + 1 else c) c =
      if b then c + n else c := by
  induction n with
  | zero => intro c; cases b <;> simp
  | succ n ih =>
    intro c
    rw [List.replicate_succ, List.foldl_cons, ih]
    cases b
    · simp
    · simp only [if_true]; push_cast; ring

/-- A buffer of `w * h` cells whose cells all read `b` is `w * h` copies of `b`. -/
theorem buffer_constant (cur : List Bool) (w h : Int) (b : Bool) (hw : 0 ≤ w) (hh : 0 ≤ h)
    (hlen : (cur.length : Int) = w * h)
    (hall : ∀ x y, 0 ≤ x → x < w → 0 ≤ y → y < h → readAt cur (y * w + x) = .ok b) :
    cur = List.replicate (w * h).toNat b := by
  rcases eq_or_lt_of_le hw with hw0 | hwpos
  · have hz : cur.length = 0 := by
      have : w * h = 0 := by rw [← hw0]; ring
      omega
    have hz' : (w * h).toNat = 0 := by
      have : w * h = 0 := by rw [← hw0]; ring
      omega
    rw [hz', List.length_eq_zero.mp hz]
    rfl
  · have hnn : 0 ≤ w * h := mul_nonneg hw hh
    apply buffer_ext cur _ w h (by omega) hlen (by simp only [List.length_replicate]; omega)
    intro x y hx0 hx hy0 hy
    have hk := hall x y hx0 hx hy0 hy
    have hr := index_range w h x y hx0 hx hy0 hy
    rw [hk, readAt_replicate _ _ _ hr.1 (by omega)]

theorem randomizeCell_clamp_low (rnd : Nat → Int) (hr : ∀ k, 0 ≤ rnd k) (p : Int)
    (hp : p < 0) : randomizeCell rnd p = randomizeCell rnd 0 := by
  funext y x s
  have h1 : 0 ≤ Int.tmod (rnd s.2) 100 := Int.tmod_nonneg 100 (hr s.2)
  have e : decide (Int.tmod (rnd s.2) 100 < p) = decide (Int.tmod (rnd s.2) 100 < 0) := by
    rw [decide_eq_decide]; omega
  simp only [randomizeCell, e]

theorem randomizeCell_clamp_high (rnd : Nat → Int) (p : Int) (hp : 100 < p) :
    randomizeCell rnd p = randomizeCell rnd 100 := by
  funext y x s
  have h1 : Int.tmod (rnd s.2) 100 < 100 := Int.tmod_lt_of_pos _ (by decide)
  have e : decide (Int.tmod (rnd s.2) 100 < p) = decide (Int.tmod (rnd s.2) 100 < 100) := by
    rw [decide_eq_decide]; omega
  simp only [randomizeCell, e]

/-- C13. On a grid with non-negative sides whose live buffer has `width * height` cells, and
for every sequence of non-negative values of the random source: `Randomize` with 0 succeeds
and leaves `AliveCount` 0; with 100 it succeeds and leaves `AliveCount` equal to
`width * height`; with a negative percentage it gives the result of 0 and with a percentage above
100 the result of 100; and for every percentage it succeeds and leaves generation 0 and the
sides unchanged. -/
theorem randomize_extremes_and_clamping (g : LifePanel) (rnd : Nat → Int) (p : Int)
    (hr : ∀ k, 0 ≤ rnd k) (hw : 0 ≤ g.m_width) (hh : 0 ≤ g.m_height)
    (hc : (g.m_current.length : Int) = g.m_width * g.m_height) :
    (∃ g0, Randomize g rnd 0 = .ok g0 ∧ AliveCount g0 = 0 ∧ g0.m_generation = 0) ∧
    (∃ g1, Randomize g rnd 100 = .ok g1 ∧ AliveCount g1 = g.m_width * g.m_height ∧
      g1.m_generation = 0) ∧
    (p < 0 → Randomize g rnd p = Randomize g rnd 0) ∧
    (100 < p → Randomize g rnd p = Randomize g rnd 100) ∧
    (∃ gp, Randomize g rnd p = .ok gp ∧ gp.m_generation = 0 ∧ gp.m_width = g.m_width ∧
      gp.m_height = g.m_height) := by
  have hnn : 0 ≤ g.m_width * g.m_height := mul_nonneg hw hh
  refine ⟨?_, ?_, ?_, ?_, ?_⟩
  · obtain ⟨cur, h1, h2, h3⟩ := Randomize_spec g rnd 0 hc hh
    have hcur := buffer_constant cur g.m_width g.m_height false hw hh (by omega) (by
      intro x y hx0 hx hy0 hy
      obtain ⟨k, hk⟩ := h3 x y hx0 hx hy0 hy
      have hk0 : ¬ (Int.tmod (rnd k) 100 < 0) := not_lt.mpr (Int.tmod_nonneg 100 (hr k))
      rw [hk, decide_eq_false hk0])
    refine ⟨_, h1, ?_, rfl⟩
    show List.foldl _ 0 cur = 0
    rw [hcur, foldl_count_replicate]
    rfl
  · obtain ⟨cur, h1, h2, h3⟩ := Randomize_spec g rnd 100 hc hh
    have hcur := buffer_constant cur g.m_width g.m_height true hw hh (by omega) (by
      intro x y hx0 hx hy0 hy
      obtain ⟨k, hk⟩ := h3 x y hx0 hx hy0 hy
      have hk1 : Int.tmod (rnd k) 100 < 100 := Int.tmod_lt_of_pos _ (by decide)
      rw [hk, decide_eq_true hk1])
    refine ⟨_, h1, ?_, rfl⟩
    show List.foldl _ 0 cur = _
    rw [hcur, foldl_count_replicate]
    simp only [if_true]
    omega
  · intro hp
    unfold Randomize
    rw [randomizeCell_clamp_low rnd hr p hp]
  · intro hp
    unfold Randomize
    rw [randomizeCell_clamp_high rnd p hp]
  · obtain ⟨cur, h1, _, _⟩ := Randomize_spec g rnd p hc hh
    exact ⟨_, h1, rfl, rfl, rfl⟩

/-- C13, on a fixture: on the 2x2 grid with draws 0, 137, 274, 411 a percentage of 50 makes the
cells alive, alive, dead, alive; 0 and -5 make all four dead, 100 and 150 all four alive. -/
theorem randomize_extremes_and_clamping_witness :
    (Randomize dest2 sampleDraws 50 =
        .ok { dest2 with m_current := [true, true, false, true], m_generation := 0 } ∧
      Randomize dest2 sampleDraws (-5) =
        .ok { dest2 with m_current := [false, false, false, false], m_generation := 0 } ∧
      Randomize dest2 sampleDraws 150 =
        .ok { dest2 with m_current := [true, true, true, true], m_generation := 0 }) ∧
    (∃ g0, Randomize dest2 sampleDraws 0 = .ok g0 ∧ AliveCount g0 = 0 ∧
      g0.m_generation = 0) ∧
    (∃ g1, Randomize dest2 sampleDraws 100 = .ok g1 ∧
      AliveCount g1 = dest2.m_width * dest2.m_height ∧ g1.m_generation = 0) ∧
    ((-5 : Int) < 0 → Randomize dest2 sampleDraws (-5) = Randomize dest2 sampleDraws 0) ∧
    ((100 : Int) < -5 → Randomize dest2 sampleDraws (-5) = Randomize dest2 sampleDraws 100) ∧
    (∃ gp, Randomize dest2 sampleDraws (-5) = .ok gp ∧ gp.m_generation = 0 ∧
      gp.m_width = dest2.m_width ∧ gp.m_height = dest2.m_height) :=
  ⟨by decide,
   randomize_extremes_and_clamping dest2 sampleDraws (-5)
     (fun k => Int.mul_nonneg (Int.ofNat_nonneg k) (by decide)) (by decide) (by decide)
     (by decide)⟩

end Life
